import Mathlib

set_option maxRecDepth 100000

/-!
# Verification of the OpenClaw guardian plugin core

A shallow embedding of the guardian decision pipeline:

* the verdict parser (`parseGuardianResponse`, from `guardian-client.ts`,
  pi-ai revision),
* the channel-metadata sanitizer (`stripChannelMetadata`) and the turn
  extractor / turn cache (`extractConversationTurns`, `updateCache`,
  `getRecentTurns`, from `message-cache.ts`),
* the decision cache and review orchestrator (`getCachedDecision`,
  `setCachedDecision`, `reviewToolCall`, from `index.ts`).

Strings are modelled as Lean `String`s; the string-manipulating primitives
of the source (`split("\n")`, `trim`, `toUpperCase`, `indexOf`, `slice`,
regex replacement) are given as structurally recursive functions over
`List Char` so that every definition is executable and every concrete
instance can be checked by `decide`.  JavaScript `Map`s (which iterate in
insertion order) are modelled as association lists, and `Date.now()` is an
explicit `now : Nat` argument.  The external model call (`callGuardian`,
which by construction always returns a `GuardianDecision`) is abstracted
as an oracle argument to `reviewToolCall`; the `modelCalled` flag of the
outcome records whether that collaborator was invoked.
-/

namespace OpenClawGuardian

/-- Character sequences; the carrier for the JS string primitives. -/
abbrev Chars := List Char

/-- Model of `String.prototype.split("\n")`: `""` splits to `[""]`,
a trailing separator yields a trailing empty chunk. -/
def splitLines : Chars → List Chars
  | [] => [[]]
  | c :: rest =>
    if c = '\n' then [] :: splitLines rest
    else
      match splitLines rest with
      | [] => [[c]]
      | l :: ls => (c :: l) :: ls

/-- Remove trailing whitespace characters (structural formulation). -/
def dropTrailingWs : Chars → Chars
  | [] => []
  | c :: rest =>
    match dropTrailingWs rest with
    | [] => if c.isWhitespace then [] else [c]
    | r => c :: r

/-- Model of `String.prototype.trim`: drop leading and trailing whitespace. -/
def trimChars (s : Chars) : Chars :=
  dropTrailingWs (s.dropWhile Char.isWhitespace)

/-- Model of `String.prototype.trim` on `String`. -/
def jsTrim (s : String) : String :=
  String.mk (trimChars s.data)

/-- Model of `String.prototype.toLowerCase` (ASCII case folding). -/
def jsToLower (s : String) : String :=
  String.mk (s.data.map Char.toLower)

/-- Model of `String.prototype.startsWith`. -/
def jsStartsWith (s pre : String) : Bool :=
  pre.data.isPrefixOf s.data

/-- Model of `Array.prototype.join("\n")`. -/
def joinNL : List String → String
  | [] => ""
  | [s] => s
  | s :: rest => s ++ "\n" ++ joinNL rest

/-- Model of `list.slice(-n)` for a nonnegative count `n`.  JavaScript
evaluates `slice(-0)` as `slice(0)`, i.e. the whole list; for `n ≥ 1` it
is the last `n` elements. -/
def jsSliceLast (l : List α) (n : Nat) : List α :=
  if n = 0 then l else l.drop (l.length - n)

/-- JS falsy-or-default on an optional string: `r || d` treats both
`undefined` and the empty string as absent. -/
def jsOrElse (r : Option String) (d : String) : String :=
  match r with
  | some s => if s = "" then d else s
  | none => d

-- ---------------------------------------------------------------------------
-- Verdict parser (`parseGuardianResponse`, guardian-client.ts)
-- ---------------------------------------------------------------------------

/-- The two verdict actions of a `GuardianDecision`. -/
inductive GAction
  | allow
  | block
deriving DecidableEq, Repr

/-- `GuardianDecision`: the terminal output of one review
(`{ action: "allow"|"block", reason?: string }`). -/
structure GuardianDecision where
  action : GAction
  reason : Option String
deriving DecidableEq, Repr

/-- `line.toUpperCase().startsWith("ALLOW")`. -/
def startsAllow (line : Chars) : Bool :=
  "ALLOW".data.isPrefixOf (line.map Char.toUpper)

/-- `line.toUpperCase().startsWith("BLOCK")`. -/
def startsBlock (line : Chars) : Bool :=
  "BLOCK".data.isPrefixOf (line.map Char.toUpper)

/-- Model of `line.indexOf(":")`: the index of the first colon, if any. -/
def jsIndexOfColon : Chars → Option Nat
  | [] => none
  | c :: rest => if c = ':' then some 0 else (jsIndexOfColon rest).map (· + 1)

/-- Reason extraction for a matched verdict line: the substring after the
first `:` if one exists (`line.indexOf(":")`), else the remainder after
the 5-character verdict token (`line.slice(5)`), trimmed. -/
def verdictReason (line : Chars) : Chars :=
  match jsIndexOfColon line with
  | some i => trimChars (line.drop (i + 1))
  | none => trimChars (line.drop 5)

/-- The decision produced from a matched (trimmed, non-blank) verdict
line, mirroring the two return statements of `parseGuardianResponse`. -/
def lineDecision (rawLine : Chars) : GuardianDecision :=
  let line := trimChars rawLine
  if startsAllow line then
    let reason := verdictReason line
    ⟨GAction.allow, if reason = [] then none else some (String.mk reason)⟩
  else
    let reason := verdictReason line
    ⟨GAction.block, some (if reason = [] then "Blocked by guardian" else String.mk reason)⟩

/-- Does a raw line (after trimming) case-insensitively begin with
`ALLOW` or `BLOCK`? -/
def isVerdictLine (rawLine : Chars) : Bool :=
  startsAllow (trimChars rawLine) || startsBlock (trimChars rawLine)

/-- The `for`-loop of `parseGuardianResponse`: scan lines from the first
forward; skip blank lines; return the decision of the first line whose
upper-cased content starts with `ALLOW` or `BLOCK`; `none` if no line
matches. -/
def scanVerdict : List Chars → Option GuardianDecision
  | [] => none
  | rawLine :: rest =>
    let line := trimChars rawLine
    if line = [] then scanVerdict rest
    else if startsAllow line then some (lineDecision rawLine)
    else if startsBlock line then some (lineDecision rawLine)
    else scanVerdict rest

/-- Specification-side reading of claim C7: given a matched verdict line
and the already-extracted base reason text, an empty reason becomes
`undefined` on an ALLOW verdict and the literal default
`"Blocked by guardian"` on a BLOCK verdict. -/
def verdictReasonSpec (line base : Chars) : Option String :=
  if startsAllow line then (if base = [] then none else some (String.mk base))
  else some (if base = [] then "Blocked by guardian" else String.mk base)

/-- `parseGuardianResponse(content, fallback)` from `guardian-client.ts`
(pi-ai revision): forward line scan, else the fallback decision with its
reason annotated with the first 60 characters of the trimmed content. -/
def parseGuardianResponse (content : String) (fallback : GuardianDecision) : GuardianDecision :=
  match scanVerdict (splitLines content.data) with
  | some d => d
  | none =>
    ⟨fallback.action,
      some ("Guardian response not recognized (\"" ++ String.mk ((trimChars content.data).take 60)
        ++ "\"): " ++ jsOrElse fallback.reason "fallback")⟩

-- ---------------------------------------------------------------------------
-- Metadata sanitizer (`stripChannelMetadata`, message-cache.ts)
-- ---------------------------------------------------------------------------

/-- A triple-backtick fence marker. -/
def ticks : Chars := "```".data

/-- Case-insensitive literal matching (the `i` flag of the metadata
pattern): consume the pattern `p` from the front of `s`, returning the
remainder, or `none` when `s` does not begin with `p` up to case. -/
def matchCI : Chars → Chars → Option Chars
  | [], s => some s
  | _ :: _, [] => none
  | p :: ps, c :: cs => if c.toLower = p.toLower then matchCI ps cs else none

/-- The lazy tail of the metadata pattern: consume up to and including the
first occurrence of a closing triple-backtick fence, returning the
remainder; `none` if no fence occurs. -/
def scanToTicks : Chars → Option Chars
  | [] => none
  | c :: rest =>
    if ticks.isPrefixOf (c :: rest) then some ((c :: rest).drop 3)
    else scanToTicks rest

/-- Attempt to match the metadata regex
`Conversation info\s*\(untrusted metadata\)\s*:\s*<fence>[\s\S]*?<fence>`
(flags `gi`) at the start of `s`; returns the length of the match.  Each
greedy `\s*` is followed by a non-whitespace literal, so maximal-munch
whitespace skipping is exactly the regex backtracking semantics. -/
def tryMatchMeta (s : Chars) : Option Nat :=
  match matchCI "Conversation info".data s with
  | none => none
  | some r1 =>
    match matchCI "(untrusted metadata)".data (r1.dropWhile Char.isWhitespace) with
    | none => none
    | some r3 =>
      match r3.dropWhile Char.isWhitespace with
      | ':' :: r5 =>
        match matchCI ticks (r5.dropWhile Char.isWhitespace) with
        | none => none
        | some r7 =>
          match scanToTicks r7 with
          | none => none
          | some r8 => some (s.length - r8.length)
      | _ => none

/-- Global regex replacement by the empty string: scan left to right; at
each position try the metadata pattern; on a match of length `m`, emit
nothing and resume after the match (`skip = m - 1` further characters
beyond the consumed head); otherwise emit the character and advance. -/
def replaceMetaGo : Nat → Chars → Chars
  | _, [] => []
  | skip + 1, _ :: rest => replaceMetaGo skip rest
  | 0, c :: rest =>
    match tryMatchMeta (c :: rest) with
    | some m => replaceMetaGo (m - 1) rest
    | none => c :: replaceMetaGo 0 rest

/-- `text.replace(metadataPattern, "")`. -/
def replaceMeta (s : Chars) : Chars :=
  replaceMetaGo 0 s

/-- Does the metadata pattern match anywhere in `s`? -/
def hasMetaMatch : Chars → Bool
  | [] => false
  | c :: rest => (tryMatchMeta (c :: rest)).isSome || hasMetaMatch rest

/-- `cleaned.replace(/\n{3,}/g, "\n\n")`: every maximal run of three or
more newlines is truncated to exactly two.  `k` counts the newlines of
the current run already seen; a run's newlines are emitted only while
fewer than two have been emitted, which truncates runs of length `≥ 3`
to two and leaves shorter runs unchanged. -/
def collapseGo : Nat → Chars → Chars
  | _, [] => []
  | k, c :: rest =>
    if c = '\n' then
      if k < 2 then c :: collapseGo (k + 1) rest else collapseGo (k + 1) rest
    else c :: collapseGo 0 rest

/-- The newline-collapsing pass of `stripChannelMetadata`. -/
def collapseNLs (s : Chars) : Chars :=
  collapseGo 0 s

/-- `s` contains no three consecutive newlines. -/
def noTriple : Chars → Bool
  | a :: b :: c :: rest =>
    if a = '\n' ∧ b = '\n' ∧ c = '\n' then false else noTriple (b :: c :: rest)
  | _ => true

/-- Number of leading newline characters. -/
def leadingNLs : Chars → Nat
  | [] => 0
  | c :: rest => if c = '\n' then leadingNLs rest + 1 else 0

/-- `stripChannelMetadata` on character lists: delete every metadata
block, collapse newline runs, then trim. -/
def stripChars (s : Chars) : Chars :=
  trimChars (collapseNLs (replaceMeta s))

/-- `stripChannelMetadata(text)` from `message-cache.ts`. -/
def stripChannelMetadata (text : String) : String :=
  String.mk (stripChars text.data)

/-- The backtick character (written by code point). -/
def tick : Char := '\u0060'

/-- A canonical metadata block, as the channel plugins emit it: the label
phrase, a colon, and a fenced body (claim C6's "text consisting only of a
metadata block"). -/
def metaBlock (body : Chars) : Chars :=
  "Conversation info (untrusted metadata): ```".data ++ body ++ ticks

-- ---------------------------------------------------------------------------
-- Turn extractor and turn cache (message-cache.ts)
-- ---------------------------------------------------------------------------

/-- One block of array-shaped message content: a `{ type: "text", text }`
block, or any non-text block (tool invocation, image, ...). -/
inductive ContentBlock
  | text (s : String)
  | other
deriving DecidableEq, Repr

/-- The `content` field of a message-like value: a plain string, a list of
content blocks, or anything else. -/
inductive MsgContent
  | str (s : String)
  | blocks (bs : List ContentBlock)
  | other
deriving DecidableEq, Repr

/-- One element of the `unknown[]` history: a value passing the
`isMessageLike` type guard (an object with a string `role` and a
`content` field), or a malformed entry that the guard rejects. -/
inductive Message
  | mk (role : String) (content : MsgContent)
  | malformed
deriving DecidableEq, Repr

/-- `ConversationTurn`: one user utterance plus the merged assistant text
that preceded it. -/
structure ConversationTurn where
  user : String
  assistant : Option String
deriving DecidableEq, Repr

/-- The block loop of `extractTextContent`: the first `text` block whose
content is non-empty after metadata stripping and trimming. -/
def firstTextNonEmpty : List ContentBlock → Option String
  | [] => none
  | ContentBlock.text s :: rest =>
    let t := stripChannelMetadata (jsTrim s)
    if t = "" then firstTextNonEmpty rest else some t
  | ContentBlock.other :: rest => firstTextNonEmpty rest

/-- `extractTextContent(content)`: text of a user message, with channel
metadata stripped; `none` when nothing non-empty remains. -/
def extractTextContent : MsgContent → Option String
  | MsgContent.str s =>
    let t := stripChannelMetadata (jsTrim s)
    if t = "" then none else some t
  | MsgContent.blocks bs => firstTextNonEmpty bs
  | MsgContent.other => none

/-- The block loop of `extractAssistantText`: the trimmed text of every
`text` block, in order. -/
def collectTextParts : List ContentBlock → List String
  | [] => []
  | ContentBlock.text s :: rest => jsTrim s :: collectTextParts rest
  | ContentBlock.other :: rest => collectTextParts rest

/-- `extractAssistantText(content)`: raw text of an assistant message
(no metadata stripping); `none` when empty after trimming. -/
def extractAssistantText : MsgContent → Option String
  | MsgContent.str s =>
    let t := jsTrim s
    if t = "" then none else some t
  | MsgContent.blocks bs =>
    let t := jsTrim (joinNL (collectTextParts bs))
    if t = "" then none else some t
  | MsgContent.other => none

/-- `mergeAssistantParts(parts)`: `undefined` for no parts, else the parts
joined by newline and trimmed (`undefined` when that is empty). -/
def mergeAssistantParts (parts : List String) : Option String :=
  if parts = [] then none
  else
    let merged := jsTrim (joinNL parts)
    if merged = "" then none else some merged

/-- The message loop of `extractConversationTurns`, carrying the pending
assistant-part accumulator.  Assistant text accumulates; a user message
with non-empty, non-slash sanitized text emits a turn and resets the
accumulator; other messages are skipped.  Assistant parts pending when
the history ends are dropped. -/
def extractGo : List Message → List String → List ConversationTurn
  | [], _ => []
  | Message.malformed :: rest, parts => extractGo rest parts
  | Message.mk role content :: rest, parts =>
    if role = "assistant" then
      match extractAssistantText content with
      | some t => extractGo rest (parts ++ [t])
      | none => extractGo rest parts
    else if role = "user" then
      match extractTextContent content with
      | none => extractGo rest parts
      | some t =>
        if jsStartsWith t "/" then extractGo rest parts
        else ⟨t, mergeAssistantParts parts⟩ :: extractGo rest []
    else extractGo rest parts

/-- `extractConversationTurns(historyMessages)` from `message-cache.ts`. -/
def extractConversationTurns (historyMessages : List Message) : List ConversationTurn :=
  extractGo historyMessages []

/-- `CACHE_TTL_MS`: turn-cache time-to-live (30 minutes). -/
def CACHE_TTL_MS : Nat := 30 * 60 * 1000

/-- `MAX_CACHE_SIZE`: maximum number of tracked sessions. -/
def MAX_CACHE_SIZE : Nat := 100

/-- `CachedMessages`: the per-session turn-cache entry. -/
structure CachedMessages where
  turns : List ConversationTurn
  updatedAt : Nat
deriving DecidableEq, Repr

/-- `Map.get`. -/
def mapGet (m : List (String × α)) (k : String) : Option α :=
  (m.find? (fun p => p.1 == k)).map (fun p => p.2)

/-- `Map.set`: a JS `Map` keeps the original insertion position when a
key is overwritten and appends new keys at the end. -/
def mapSet (m : List (String × α)) (k : String) (v : α) : List (String × α) :=
  if m.any (fun p => p.1 == k) then m.map (fun p => if p.1 == k then (k, v) else p)
  else m ++ [(k, v)]

/-- `Map.delete`. -/
def mapDelete (m : List (String × α)) (k : String) : List (String × α) :=
  m.filter (fun p => p.1 != k)

/-- The `while (size > cap) delete oldest` loop of both caches: drop
entries in insertion order until at or under the capacity. -/
def evictWhileOver (cap : Nat) : List (String × α) → List (String × α)
  | [] => []
  | x :: rest => if rest.length + 1 > cap then evictWhileOver cap rest else x :: rest

/-- The turn-cache store (the module-level `Map`), as explicit state. -/
structure CacheState where
  entries : List (String × CachedMessages)
deriving DecidableEq, Repr

/-- `pruneCache()`: drop expired entries, then enforce the size limit in
insertion order. -/
def pruneCache (now : Nat) (entries : List (String × CachedMessages)) :
    List (String × CachedMessages) :=
  evictWhileOver MAX_CACHE_SIZE
    (entries.filter (fun p => !decide (now - p.2.updatedAt > CACHE_TTL_MS)))

/-- The current-prompt block of `updateCache`: the turn pushed for the
current prompt, when it passes the truthiness, trim and slash-command
checks of the source (`currentPrompt && currentPrompt.trim() &&
!currentPrompt.startsWith("/")`, then the same checks on the
metadata-stripped prompt). -/
def promptTurn (currentPrompt : Option String) : List ConversationTurn :=
  match currentPrompt with
  | none => []
  | some p =>
    if p ≠ "" ∧ jsTrim p ≠ "" ∧ jsStartsWith p "/" = false then
      let cleanedPrompt := stripChannelMetadata (jsTrim p)
      if cleanedPrompt ≠ "" ∧ jsStartsWith cleanedPrompt "/" = false then
        [⟨cleanedPrompt, none⟩]
      else []
    else []

/-- `updateCache(sessionKey, historyMessages, currentPrompt, maxTurns)`:
extract turns, append the sanitized current prompt when it is non-empty
and not a slash command (checked before and after sanitization), keep the
last `maxTurns` entries (`slice(-maxTurns)`), store under `sessionKey`
with `updatedAt = now`, then prune. -/
def updateCache (now : Nat) (sessionKey : String) (historyMessages : List Message)
    (currentPrompt : Option String) (maxTurns : Nat) (st : CacheState) : CacheState :=
  let turns := extractConversationTurns historyMessages ++ promptTurn currentPrompt
  let recent := jsSliceLast turns maxTurns
  ⟨pruneCache now (mapSet st.entries sessionKey ⟨recent, now⟩)⟩

/-- `getRecentTurns(sessionKey)`: the stored turns when present and not
older than the TTL; an expired entry is deleted as a side effect. -/
def getRecentTurns (now : Nat) (sessionKey : String) (st : CacheState) :
    List ConversationTurn × CacheState :=
  match mapGet st.entries sessionKey with
  | none => ([], st)
  | some entry =>
    if now - entry.updatedAt > CACHE_TTL_MS then ([], ⟨mapDelete st.entries sessionKey⟩)
    else (entry.turns, st)

/-- `clearCache()`. -/
def clearCache (_st : CacheState) : CacheState := ⟨[]⟩

/-- `cacheSize()`: raw map size, no TTL check. -/
def cacheSize (st : CacheState) : Nat := st.entries.length

/-- The last `n` entries of a list (oldest dropped first) — the
specification-side reading of "truncate to the last `maxTurns`
entries". -/
def lastN (n : Nat) (l : List α) : List α :=
  l.drop (l.length - n)

/-- The specification-side current-prompt turn of claim C3: the prompt is
appended as `{user: sanitizedPrompt}` exactly when it is non-blank, and
still non-blank and not slash-prefixed after sanitization. -/
def claimPromptTurns (currentPrompt : Option String) : List ConversationTurn :=
  match currentPrompt with
  | none => []
  | some p =>
    let cleaned := stripChannelMetadata (jsTrim p)
    if jsTrim p ≠ "" ∧ cleaned ≠ "" ∧ jsStartsWith cleaned "/" = false then [⟨cleaned, none⟩]
    else []

-- ---------------------------------------------------------------------------
-- Decision cache and review orchestrator (index.ts)
-- ---------------------------------------------------------------------------

/-- `DECISION_CACHE_TTL_MS`: decision-cache time-to-live (5 seconds). -/
def DECISION_CACHE_TTL_MS : Nat := 5000

/-- `MAX_DECISION_CACHE_SIZE`. -/
def MAX_DECISION_CACHE_SIZE : Nat := 256

/-- `CachedDecision`: one decision-cache entry. -/
structure CachedDecision where
  action : GAction
  reason : Option String
  cachedAt : Nat
deriving DecidableEq, Repr

/-- The fallback policy (`fallback_on_error`). -/
inductive FallbackPolicy
  | allow
  | block
deriving DecidableEq, Repr

/-- The guardian mode (`enforce` or `audit`). -/
inductive GuardianMode
  | enforce
  | audit
deriving DecidableEq, Repr

/-- The resolved `GuardianConfig` fields consumed by `reviewToolCall`
(model reference and logging flag excluded: they do not influence the
returned result). -/
structure GuardianConfig where
  fallback_on_error : FallbackPolicy
  mode : GuardianMode
  max_user_messages : Nat
  max_arg_length : Nat
deriving DecidableEq, Repr

/-- `getCachedDecision(key)`: the live entry for `key`, deleting an
expired entry as a side effect. -/
def getCachedDecision (now : Nat) (key : String) (m : List (String × CachedDecision)) :
    Option CachedDecision × List (String × CachedDecision) :=
  match mapGet m key with
  | none => (none, m)
  | some entry =>
    if now - entry.cachedAt > DECISION_CACHE_TTL_MS then (none, mapDelete m key)
    else (some entry, m)

/-- `setCachedDecision(key, action, reason)`: store the entry with
`cachedAt = now`, then evict oldest-inserted entries while over
capacity. -/
def setCachedDecision (now : Nat) (key : String) (action : GAction) (reason : Option String)
    (m : List (String × CachedDecision)) : List (String × CachedDecision) :=
  evictWhileOver MAX_DECISION_CACHE_SIZE (mapSet m key ⟨action, reason, now⟩)

/-- The `before_tool_call` event: the candidate tool invocation.  The
arguments object is kept opaque (it flows only into the prompt and the
logs, never into the decision logic). -/
structure ToolEvent where
  toolName : String
deriving DecidableEq, Repr

/-- The tool context: the session key may be absent. -/
structure ToolContext where
  sessionKey : Option String
deriving DecidableEq, Repr

/-- A blocking hook result `{ block: true, blockReason }`; `undefined`
(allow) is modelled as `none` at the use sites. -/
structure BlockResult where
  block : Bool
  blockReason : String
deriving DecidableEq, Repr

/-- The two module-level caches consumed by `reviewToolCall`. -/
structure ReviewState where
  decisionCache : List (String × CachedDecision)
  msgCache : CacheState
deriving DecidableEq, Repr

/-- `decisionCache.clear()` (used by tests for an explicit reset). -/
def clearDecisionCache (st : ReviewState) : ReviewState :=
  ⟨[], st.msgCache⟩

/-- The outcome of one `reviewToolCall` invocation: the returned hook
result (`none` = `undefined` = allow through), the caches after the call,
and whether the external guardian model was invoked. -/
structure ReviewOutcome where
  result : Option BlockResult
  state : ReviewState
  modelCalled : Bool
deriving DecidableEq, Repr

/-- `reviewToolCall(config, model, watchedTools, systemPrompt, event, ctx,
logger)` from `index.ts`.  `watched` is the lowercased watched-tool set;
`modelDecision` abstracts the `callGuardian` collaborator, which always
returns a `GuardianDecision` (timeouts and errors are converted to the
fallback inside it).  Logging is a pure side effect and is omitted. -/
def reviewToolCall (cfg : GuardianConfig) (watched : List String) (event : ToolEvent)
    (ctx : ToolContext) (modelDecision : GuardianDecision) (now : Nat) (st : ReviewState) :
    ReviewOutcome :=
  let toolNameLower := jsToLower event.toolName
  -- 1. Skip unwatched tools immediately
  if watched.contains toolNameLower = false then ⟨none, st, false⟩
  else
    let sessionKey := ctx.sessionKey.getD "unknown"
    -- 2. Check decision cache (dedup within same LLM turn)
    let cacheKey := sessionKey ++ ":" ++ toolNameLower
    match getCachedDecision now cacheKey st.decisionCache with
    | (some cached, dc) =>
      if cached.action = GAction.block ∧ cfg.mode = GuardianMode.enforce then
        ⟨some ⟨true, "Guardian: " ++ jsOrElse cached.reason "blocked (cached)"⟩,
          ⟨dc, st.msgCache⟩, false⟩
      else ⟨none, ⟨dc, st.msgCache⟩, false⟩
    | (none, dc) =>
      -- 3. Retrieve cached conversation turns
      let (turns, mc) := getRecentTurns now sessionKey st.msgCache
      if turns.length = 0 ∧ sessionKey = "unknown" then
        if cfg.fallback_on_error = FallbackPolicy.block ∧ cfg.mode = GuardianMode.enforce then
          ⟨some ⟨true, "Guardian: no session context available"⟩, ⟨dc, mc⟩, false⟩
        else ⟨none, ⟨dc, mc⟩, false⟩
      else
        -- 4./5. Build the prompt and call the guardian LLM (the oracle)
        let decision := modelDecision
        -- 6. Cache the decision
        let dc2 := setCachedDecision now cacheKey decision.action decision.reason dc
        -- 7./8. Return the decision, applying enforce/audit mode
        if decision.action = GAction.block ∧ cfg.mode = GuardianMode.enforce then
          ⟨some ⟨true, "Guardian: " ++ jsOrElse decision.reason "blocked"⟩, ⟨dc2, mc⟩, true⟩
        else ⟨none, ⟨dc2, mc⟩, true⟩

end OpenClawGuardian
namespace OpenClawGuardian

-- ---------------------------------------------------------------------------
-- Lemmas about the verdict parser
-- ---------------------------------------------------------------------------

theorem startsAllow_nil : startsAllow [] = false := by decide

theorem startsBlock_nil : startsBlock [] = false := by decide

theorem isVerdictLine_false_elim (l : Chars) (h : isVerdictLine l = false) :
    startsAllow (trimChars l) = false ∧ startsBlock (trimChars l) = false := by
  unfold isVerdictLine at h
  exact ⟨by revert h; cases startsAllow (trimChars l) <;> simp,
         by revert h; cases startsBlock (trimChars l) <;> simp⟩

theorem trimChars_ne_nil_of_verdict (l : Chars) (h : isVerdictLine l = true) :
    trimChars l ≠ [] := by
  intro heq
  unfold isVerdictLine at h
  rw [heq] at h
  simp [startsAllow_nil, startsBlock_nil] at h

theorem scanVerdict_cons (a : Chars) (l : List Chars) :
    scanVerdict (a :: l) =
      (if trimChars a = [] then scanVerdict l
       else if startsAllow (trimChars a) then some (lineDecision a)
       else if startsBlock (trimChars a) then some (lineDecision a)
       else scanVerdict l) := rfl

/-- Scanning skips every non-matching line. -/
theorem scanVerdict_append_of_not_verdict :
    ∀ (pre rest : List Chars), (∀ x ∈ pre, isVerdictLine x = false) →
      scanVerdict (pre ++ rest) = scanVerdict rest
  | [], _, _ => rfl
  | x :: xs, rest, h => by
    have hx := isVerdictLine_false_elim x (h x (List.mem_cons_self x xs))
    have ih := scanVerdict_append_of_not_verdict xs rest
      (fun y hy => h y (List.mem_cons_of_mem x hy))
    show scanVerdict (x :: (xs ++ rest)) = scanVerdict rest
    rw [scanVerdict_cons, hx.1, hx.2]
    split <;> simpa using ih

/-- Scanning stops at the first matching line, whatever follows it. -/
theorem scanVerdict_cons_of_verdict (l : Chars) (rest : List Chars)
    (h : isVerdictLine l = true) : scanVerdict (l :: rest) = some (lineDecision l) := by
  have hne : trimChars l ≠ [] := trimChars_ne_nil_of_verdict l h
  rw [scanVerdict_cons]
  unfold isVerdictLine at h
  rcases Bool.or_eq_true_iff.mp h with hA | hB
  · simp [hne, hA]
  · cases hSA : startsAllow (trimChars l)
    · simp [hne, hSA, hB]
    · simp [hne, hSA]

theorem parse_eq_lineDecision (content : String) (fb : GuardianDecision)
    (pre post : List Chars) (l : Chars)
    (h : splitLines content.data = pre ++ l :: post)
    (hpre : ∀ x ∈ pre, isVerdictLine x = false)
    (hl : isVerdictLine l = true) :
    parseGuardianResponse content fb = lineDecision l := by
  unfold parseGuardianResponse
  rw [h, scanVerdict_append_of_not_verdict pre _ hpre, scanVerdict_cons_of_verdict l post hl]

theorem jsIndexOfColon_append (b a : Chars) (hb : ':' ∉ b) :
    jsIndexOfColon (b ++ ':' :: a) = some b.length := by
  induction b with
  | nil => simp [jsIndexOfColon]
  | cons c cs ih =>
    have hc : ¬ c = ':' := fun h => hb (h ▸ List.mem_cons_self c cs)
    have hcs : ':' ∉ cs := fun h => hb (List.mem_cons_of_mem c h)
    simp [jsIndexOfColon, hc, ih hcs]

theorem jsIndexOfColon_none (l : Chars) (h : ':' ∉ l) : jsIndexOfColon l = none := by
  induction l with
  | nil => rfl
  | cons c cs ih =>
    have hc : ¬ c = ':' := fun hx => h (hx ▸ List.mem_cons_self c cs)
    have hcs : ':' ∉ cs := fun hx => h (List.mem_cons_of_mem c hx)
    simp [jsIndexOfColon, hc, ih hcs]

theorem drop_append_cons (b : Chars) (x : Char) (a : Chars) :
    (b ++ x :: a).drop (b.length + 1) = a := by
  induction b with
  | nil => simp
  | cons c cs ih =>
    simp only [List.cons_append, List.length_cons, List.drop_succ_cons]
    exact ih

theorem lineDecision_reason (l : Chars) :
    (lineDecision l).reason = verdictReasonSpec (trimChars l) (verdictReason (trimChars l)) := by
  unfold lineDecision verdictReasonSpec
  cases h : startsAllow (trimChars l) <;> simp [h]

end OpenClawGuardian

namespace OpenClawGuardian

/-- C1: for every model response text and fallback decision, the verdict
parser scans the text line by line from the first line forward (blank
lines skipped); the first line whose content case-insensitively begins
with ALLOW or BLOCK determines the returned verdict, and all text after
that line — including further ALLOW/BLOCK tokens — and the fallback have
no effect on the result. -/
theorem guardian_verdict_forward_scan
    (content content2 : String) (fb fb2 : GuardianDecision)
    (pre post pre2 post2 : List Chars) (l : Chars)
    (h1 : splitLines content.data = pre ++ l :: post)
    (h2 : splitLines content2.data = pre2 ++ l :: post2)
    (hpre1 : ∀ x ∈ pre, isVerdictLine x = false)
    (hpre2 : ∀ x ∈ pre2, isVerdictLine x = false)
    (hl : isVerdictLine l = true) :
    parseGuardianResponse content fb = parseGuardianResponse content2 fb2 ∧
    (parseGuardianResponse content fb).action =
      (if startsAllow (trimChars l) then GAction.allow else GAction.block) := by
  have e1 := parse_eq_lineDecision content fb pre post l h1 hpre1 hl
  have e2 := parse_eq_lineDecision content2 fb2 pre2 post2 l h2 hpre2 hl
  refine ⟨e1.trans e2.symm, ?_⟩
  rw [e1]
  unfold lineDecision
  cases h : startsAllow (trimChars l) <;> simp [h]

/-- Witness for C1: `"BLOCK: reason1\nALLOW: reason2"` parses to a block
decision with reason `"reason1"`, and the text after the BLOCK line (and
the fallback) is irrelevant. -/
theorem guardian_verdict_forward_scan_witness :
    parseGuardianResponse "BLOCK: reason1\nALLOW: reason2" ⟨GAction.allow, none⟩ =
      parseGuardianResponse "BLOCK: reason1\nanything else at all" ⟨GAction.block, some "x"⟩ ∧
    (parseGuardianResponse "BLOCK: reason1\nALLOW: reason2" ⟨GAction.allow, none⟩).action
      = GAction.block ∧
    parseGuardianResponse "BLOCK: reason1\nALLOW: reason2" ⟨GAction.allow, none⟩ =
      ⟨GAction.block, some "reason1"⟩ := by
  have h := guardian_verdict_forward_scan "BLOCK: reason1\nALLOW: reason2"
    "BLOCK: reason1\nanything else at all" ⟨GAction.allow, none⟩ ⟨GAction.block, some "x"⟩
    [] ["ALLOW: reason2".data] [] ["anything else at all".data]
    "BLOCK: reason1".data (by decide) (by decide) (by simp) (by simp) (by decide)
  exact ⟨h.1, by rw [h.2]; decide, by decide⟩

/-- C7: for every line matched as a verdict, the extracted reason is the
substring after the first colon if a colon exists, otherwise the
remainder of the line after the 5-character verdict token, trimmed; an
empty reason on an ALLOW verdict becomes `undefined` and an empty reason
on a BLOCK verdict becomes the literal default `"Blocked by guardian"`
(the empty-reason defaulting is `verdictReasonSpec`). -/
theorem guardian_verdict_reason_rule (content : String) (fb : GuardianDecision)
    (pre post : List Chars) (l : Chars)
    (h : splitLines content.data = pre ++ l :: post)
    (hpre : ∀ x ∈ pre, isVerdictLine x = false)
    (hl : isVerdictLine l = true) :
    (∀ b a, trimChars l = b ++ ':' :: a → ':' ∉ b →
      (parseGuardianResponse content fb).reason =
        verdictReasonSpec (trimChars l) (trimChars a)) ∧
    (':' ∉ trimChars l →
      (parseGuardianResponse content fb).reason =
        verdictReasonSpec (trimChars l) (trimChars ((trimChars l).drop 5))) := by
  have e := parse_eq_lineDecision content fb pre post l h hpre hl
  rw [e, lineDecision_reason l]
  constructor
  · intro b a hba hb
    have hidx : jsIndexOfColon (trimChars l) = some b.length := by
      rw [hba]; exact jsIndexOfColon_append b a hb
    have hvr : verdictReason (trimChars l) = trimChars a := by
      unfold verdictReason
      rw [hidx, hba]
      show trimChars ((b ++ ':' :: a).drop (b.length + 1)) = trimChars a
      rw [drop_append_cons]
    rw [hvr]
  · intro hnc
    have hidx : jsIndexOfColon (trimChars l) = none := jsIndexOfColon_none _ hnc
    have hvr : verdictReason (trimChars l) = trimChars ((trimChars l).drop 5) := by
      unfold verdictReason; rw [hidx]
    rw [hvr]

/-- Witness for C7: the colon-free BLOCK line yields the post-token
remainder as reason, and a colon line yields the after-colon text. -/
theorem guardian_verdict_reason_rule_witness :
    (parseGuardianResponse "BLOCK suspicious tool call" ⟨GAction.allow, none⟩).reason =
      some "suspicious tool call" ∧
    (parseGuardianResponse "ALLOW: ok to proceed" ⟨GAction.block, none⟩).reason =
      some "ok to proceed" := by
  constructor
  · have h := (guardian_verdict_reason_rule "BLOCK suspicious tool call" ⟨GAction.allow, none⟩
      [] [] "BLOCK suspicious tool call".data (by decide) (by simp) (by decide)).2 (by decide)
    rw [h]; decide
  · have h := (guardian_verdict_reason_rule "ALLOW: ok to proceed" ⟨GAction.block, none⟩
      [] [] "ALLOW: ok to proceed".data (by decide) (by simp) (by decide)).1
      "ALLOW".data " ok to proceed".data (by decide) (by decide)
    rw [h]; decide

end OpenClawGuardian

namespace OpenClawGuardian

-- ---------------------------------------------------------------------------
-- Characterization lemmas for the four `reviewToolCall` branches
-- ---------------------------------------------------------------------------

theorem reviewToolCall_unwatched (cfg : GuardianConfig) (watched : List String)
    (event : ToolEvent) (ctx : ToolContext) (md : GuardianDecision) (now : Nat)
    (st : ReviewState)
    (hw : watched.contains (jsToLower event.toolName) = false) :
    reviewToolCall cfg watched event ctx md now st = ⟨none, st, false⟩ := by
  unfold reviewToolCall
  rw [if_pos hw]

theorem reviewToolCall_cache_hit (cfg : GuardianConfig) (watched : List String)
    (event : ToolEvent) (ctx : ToolContext) (md : GuardianDecision) (now : Nat)
    (st : ReviewState) (cached : CachedDecision) (dc : List (String × CachedDecision))
    (hw : watched.contains (jsToLower event.toolName) = true)
    (hc : getCachedDecision now
      ((ctx.sessionKey.getD "unknown") ++ ":" ++ jsToLower event.toolName)
      st.decisionCache = (some cached, dc)) :
    reviewToolCall cfg watched event ctx md now st =
      (if cached.action = GAction.block ∧ cfg.mode = GuardianMode.enforce then
        ⟨some ⟨true, "Guardian: " ++ jsOrElse cached.reason "blocked (cached)"⟩,
          ⟨dc, st.msgCache⟩, false⟩
      else ⟨none, ⟨dc, st.msgCache⟩, false⟩) := by
  unfold reviewToolCall
  rw [if_neg (by rw [hw]; simp)]
  simp [hc]

theorem reviewToolCall_no_context (cfg : GuardianConfig) (watched : List String)
    (event : ToolEvent) (ctx : ToolContext) (md : GuardianDecision) (now : Nat)
    (st : ReviewState) (dc : List (String × CachedDecision))
    (turns : List ConversationTurn) (mc : CacheState)
    (hw : watched.contains (jsToLower event.toolName) = true)
    (hc : getCachedDecision now
      ((ctx.sessionKey.getD "unknown") ++ ":" ++ jsToLower event.toolName)
      st.decisionCache = (none, dc))
    (hg : getRecentTurns now (ctx.sessionKey.getD "unknown") st.msgCache = (turns, mc))
    (ht : turns.length = 0) (hsk : ctx.sessionKey.getD "unknown" = "unknown") :
    reviewToolCall cfg watched event ctx md now st =
      (if cfg.fallback_on_error = FallbackPolicy.block ∧ cfg.mode = GuardianMode.enforce then
        ⟨some ⟨true, "Guardian: no session context available"⟩, ⟨dc, mc⟩, false⟩
      else ⟨none, ⟨dc, mc⟩, false⟩) := by
  unfold reviewToolCall
  rw [if_neg (by rw [hw]; simp)]
  simp [hsk] at hc hg
  simp [hc, hg, List.length_eq_zero.mp ht, hsk]

theorem reviewToolCall_fresh (cfg : GuardianConfig) (watched : List String)
    (event : ToolEvent) (ctx : ToolContext) (md : GuardianDecision) (now : Nat)
    (st : ReviewState) (dc : List (String × CachedDecision))
    (turns : List ConversationTurn) (mc : CacheState)
    (hw : watched.contains (jsToLower event.toolName) = true)
    (hc : getCachedDecision now
      ((ctx.sessionKey.getD "unknown") ++ ":" ++ jsToLower event.toolName)
      st.decisionCache = (none, dc))
    (hg : getRecentTurns now (ctx.sessionKey.getD "unknown") st.msgCache = (turns, mc))
    (hnc : ¬(turns.length = 0 ∧ ctx.sessionKey.getD "unknown" = "unknown")) :
    reviewToolCall cfg watched event ctx md now st =
      (if md.action = GAction.block ∧ cfg.mode = GuardianMode.enforce then
        ⟨some ⟨true, "Guardian: " ++ jsOrElse md.reason "blocked"⟩,
          ⟨setCachedDecision now
            ((ctx.sessionKey.getD "unknown") ++ ":" ++ jsToLower event.toolName)
            md.action md.reason dc, mc⟩, true⟩
      else
        ⟨none, ⟨setCachedDecision now
            ((ctx.sessionKey.getD "unknown") ++ ":" ++ jsToLower event.toolName)
            md.action md.reason dc, mc⟩, true⟩) := by
  unfold reviewToolCall
  rw [if_neg (by rw [hw]; simp)]
  have hnc2 : ¬(turns = [] ∧ ctx.sessionKey.getD "unknown" = "unknown") := by
    intro h
    exact hnc ⟨by simp [h.1], h.2⟩
  simp [hc, hg, hnc2]

end OpenClawGuardian

namespace OpenClawGuardian

-- ---------------------------------------------------------------------------
-- Association-list lemmas for the decision cache
-- ---------------------------------------------------------------------------

theorem mapGet_none_keys (m : List (String × α)) (k : String)
    (h : mapGet m k = none) : ∀ p ∈ m, p.1 ≠ k := by
  intro p hp
  unfold mapGet at h
  rcases hf : m.find? (fun q => q.1 == k) with _ | q
  · have := List.find?_eq_none.mp hf p hp
    simpa using this
  · rw [hf] at h
    simp at h

theorem mapDelete_keys (m : List (String × α)) (k : String) :
    ∀ p ∈ mapDelete m k, p.1 ≠ k := by
  intro p hp
  unfold mapDelete at hp
  have := List.of_mem_filter hp
  simpa using this

theorem mapDelete_length (m : List (String × α)) (k : String) :
    (mapDelete m k).length ≤ m.length :=
  List.length_filter_le _ m

theorem getCachedDecision_none_keys (now : Nat) (key : String)
    (m dc : List (String × CachedDecision))
    (h : getCachedDecision now key m = (none, dc)) : ∀ p ∈ dc, p.1 ≠ key := by
  unfold getCachedDecision at h
  split at h
  next hm =>
    simp at h
    subst h
    exact mapGet_none_keys m key hm
  next entry hm =>
    split at h
    · simp at h
      subst h
      exact mapDelete_keys m key
    · simp at h

theorem getCachedDecision_none_length (now : Nat) (key : String)
    (m dc : List (String × CachedDecision))
    (h : getCachedDecision now key m = (none, dc)) : dc.length ≤ m.length := by
  unfold getCachedDecision at h
  split at h
  next hm =>
    simp at h
    subst h
    exact Nat.le_refl _
  next entry hm =>
    split at h
    · simp at h
      subst h
      exact mapDelete_length m key
    · simp at h

theorem evictWhileOver_eq_drop (cap : Nat) (l : List (String × α)) :
    evictWhileOver cap l = l.drop (l.length - cap) := by
  induction l with
  | nil => simp [evictWhileOver]
  | cons x rest ih =>
    unfold evictWhileOver
    by_cases h : rest.length + 1 > cap
    · rw [if_pos h, ih]
      have hlen : (x :: rest).length - cap = (rest.length - cap) + 1 := by
        simp only [List.length_cons]
        omega
      rw [hlen, List.drop_succ_cons]
    · rw [if_neg h]
      have hlen : (x :: rest).length - cap = 0 := by
        simp only [List.length_cons]
        omega
      rw [hlen, List.drop_zero]

theorem mapGet_append_singleton (l : List (String × α)) (k : String) (v : α)
    (h : ∀ p ∈ l, p.1 ≠ k) : mapGet (l ++ [(k, v)]) k = some v := by
  induction l with
  | nil => simp [mapGet]
  | cons x xs ih =>
    have hx2 : (x.1 == k) = false := by
      simpa using h x (List.mem_cons_self x xs)
    have ih2 := ih (fun p hp => h p (List.mem_cons_of_mem x hp))
    simpa [mapGet, List.find?_cons, hx2] using ih2

theorem setCachedDecision_get (t1 : Nat) (key : String) (a : GAction) (r : Option String)
    (dc : List (String × CachedDecision))
    (hkeys : ∀ p ∈ dc, p.1 ≠ key) :
    mapGet (setCachedDecision t1 key a r dc) key = some ⟨a, r, t1⟩ := by
  unfold setCachedDecision mapSet
  have hany : dc.any (fun p => p.1 == key) = false := by
    rw [List.any_eq_false]
    intro p hp
    simpa using hkeys p hp
  rw [hany]
  simp only [Bool.false_eq_true, if_false]
  rw [evictWhileOver_eq_drop]
  have hk : (dc ++ [(key, (⟨a, r, t1⟩ : CachedDecision))]).length - MAX_DECISION_CACHE_SIZE
      ≤ dc.length := by
    simp only [List.length_append, List.length_singleton]
    have : 1 ≤ MAX_DECISION_CACHE_SIZE := by decide
    omega
  rw [List.drop_append_of_le_length hk]
  exact mapGet_append_singleton _ key _
    (fun p hp => hkeys p (List.drop_subset _ dc hp))

theorem getCachedDecision_of_get_some (now : Nat) (key : String)
    (m : List (String × CachedDecision)) (e : CachedDecision)
    (hm : mapGet m key = some e) :
    getCachedDecision now key m =
      (if now - e.cachedAt > DECISION_CACHE_TTL_MS then (none, mapDelete m key)
       else (some e, m)) := by
  unfold getCachedDecision
  rw [hm]

theorem getCachedDecision_after_set (t1 t2 : Nat) (key : String) (a : GAction)
    (r : Option String) (dc : List (String × CachedDecision))
    (hkeys : ∀ p ∈ dc, p.1 ≠ key)
    (ht : t2 - t1 ≤ DECISION_CACHE_TTL_MS) :
    getCachedDecision t2 key (setCachedDecision t1 key a r dc) =
      (some ⟨a, r, t1⟩, setCachedDecision t1 key a r dc) := by
  rw [getCachedDecision_of_get_some t2 key _ _ (setCachedDecision_get t1 key a r dc hkeys)]
  rw [if_neg (show ¬ t2 - t1 > DECISION_CACHE_TTL_MS by omega)]

theorem getCachedDecision_after_set_expired (t1 t2 : Nat) (key : String) (a : GAction)
    (r : Option String) (dc : List (String × CachedDecision))
    (hkeys : ∀ p ∈ dc, p.1 ≠ key)
    (ht : t2 - t1 > DECISION_CACHE_TTL_MS) :
    getCachedDecision t2 key (setCachedDecision t1 key a r dc) =
      (none, mapDelete (setCachedDecision t1 key a r dc) key) := by
  rw [getCachedDecision_of_get_some t2 key _ _ (setCachedDecision_get t1 key a r dc hkeys)]
  rw [if_pos (show t2 - t1 > DECISION_CACHE_TTL_MS from ht)]

-- ---------------------------------------------------------------------------
-- Inversion: a review that called the model took the fresh branch
-- ---------------------------------------------------------------------------

theorem reviewToolCall_modelCalled_inv (cfg : GuardianConfig) (watched : List String)
    (event : ToolEvent) (ctx : ToolContext) (md : GuardianDecision) (now : Nat)
    (st : ReviewState)
    (h : (reviewToolCall cfg watched event ctx md now st).modelCalled = true) :
    watched.contains (jsToLower event.toolName) = true ∧
    ∃ dc turns mc,
      getCachedDecision now ((ctx.sessionKey.getD "unknown") ++ ":" ++ jsToLower event.toolName)
        st.decisionCache = (none, dc) ∧
      getRecentTurns now (ctx.sessionKey.getD "unknown") st.msgCache = (turns, mc) ∧
      ¬(turns.length = 0 ∧ ctx.sessionKey.getD "unknown" = "unknown") ∧
      (reviewToolCall cfg watched event ctx md now st).state =
        ⟨setCachedDecision now
          ((ctx.sessionKey.getD "unknown") ++ ":" ++ jsToLower event.toolName)
          md.action md.reason dc, mc⟩ := by
  by_cases hw : watched.contains (jsToLower event.toolName) = true
  · rcases hcd : getCachedDecision now
        ((ctx.sessionKey.getD "unknown") ++ ":" ++ jsToLower event.toolName)
        st.decisionCache with ⟨copt, dc⟩
    cases copt with
    | some cached =>
      rw [reviewToolCall_cache_hit cfg watched event ctx md now st cached dc hw hcd] at h
      revert h
      split <;> simp
    | none =>
      rcases hg : getRecentTurns now (ctx.sessionKey.getD "unknown") st.msgCache with ⟨turns, mc⟩
      by_cases hnc : turns.length = 0 ∧ ctx.sessionKey.getD "unknown" = "unknown"
      · rw [reviewToolCall_no_context cfg watched event ctx md now st dc turns mc
          hw hcd hg hnc.1 hnc.2] at h
        revert h
        split <;> simp
      · refine ⟨hw, dc, turns, mc, rfl, rfl, hnc, ?_⟩
        rw [reviewToolCall_fresh cfg watched event ctx md now st dc turns mc hw hcd hg hnc]
        split <;> rfl
  · have hw2 : watched.contains (jsToLower event.toolName) = false := by
      revert hw
      cases watched.contains (jsToLower event.toolName) <;> simp
    rw [reviewToolCall_unwatched cfg watched event ctx md now st hw2] at h
    simp at h

end OpenClawGuardian

namespace OpenClawGuardian

/-- C8: a tool call whose lowercased name is not in the watched-tool set
is allowed immediately (`undefined` result): the external model is not
invoked and neither the decision cache nor the turn cache is read or
written (the caches are returned unchanged). -/
theorem guardian_unwatched_tool_bypass (cfg : GuardianConfig) (watched : List String)
    (event : ToolEvent) (ctx : ToolContext) (md : GuardianDecision) (now : Nat)
    (st : ReviewState)
    (hw : watched.contains (jsToLower event.toolName) = false) :
    reviewToolCall cfg watched event ctx md now st = ⟨none, st, false⟩ :=
  reviewToolCall_unwatched cfg watched event ctx md now st hw

/-- Witness for C8: reviewing `web_fetch` against the default-style
watched set returns `undefined` without touching state. -/
theorem guardian_unwatched_tool_bypass_witness :
    reviewToolCall ⟨FallbackPolicy.allow, GuardianMode.enforce, 3, 500⟩
      ["message_send", "message", "exec"] ⟨"web_fetch"⟩ ⟨some "s1"⟩ ⟨GAction.allow, none⟩ 0
      ⟨[("s1:exec", ⟨GAction.block, some "old", 0⟩)], ⟨[("s1", ⟨[⟨"hi", none⟩], 0⟩)]⟩⟩ =
      ⟨none, ⟨[("s1:exec", ⟨GAction.block, some "old", 0⟩)], ⟨[("s1", ⟨[⟨"hi", none⟩], 0⟩)]⟩⟩,
        false⟩ :=
  guardian_unwatched_tool_bypass _ _ _ _ _ _ _ (by decide)

/-- C5: a review ending in a block verdict — freshly parsed from the
model (`modelCalled = true`) or taken from the decision cache — returns
an actual blocking result exactly under enforce mode; under audit mode
the returned result is `undefined` and the call is allowed through. -/
theorem guardian_block_enforced_only (cfg : GuardianConfig) (watched : List String)
    (event : ToolEvent) (ctx : ToolContext) (md : GuardianDecision) (now : Nat)
    (st : ReviewState) :
    ((reviewToolCall cfg watched event ctx md now st).modelCalled = true →
      md.action = GAction.block →
      (cfg.mode = GuardianMode.enforce →
        (reviewToolCall cfg watched event ctx md now st).result =
          some ⟨true, "Guardian: " ++ jsOrElse md.reason "blocked"⟩) ∧
      (cfg.mode = GuardianMode.audit →
        (reviewToolCall cfg watched event ctx md now st).result = none)) ∧
    (∀ cached dc,
      getCachedDecision now
        ((ctx.sessionKey.getD "unknown") ++ ":" ++ jsToLower event.toolName)
        st.decisionCache = (some cached, dc) →
      watched.contains (jsToLower event.toolName) = true →
      cached.action = GAction.block →
      (cfg.mode = GuardianMode.enforce →
        (reviewToolCall cfg watched event ctx md now st).result =
          some ⟨true, "Guardian: " ++ jsOrElse cached.reason "blocked (cached)"⟩) ∧
      (cfg.mode = GuardianMode.audit →
        (reviewToolCall cfg watched event ctx md now st).result = none)) := by
  constructor
  · intro hmc hblk
    obtain ⟨hw, dc, turns, mc, hcd, hg, hnc, -⟩ :=
      reviewToolCall_modelCalled_inv cfg watched event ctx md now st hmc
    rw [reviewToolCall_fresh cfg watched event ctx md now st dc turns mc hw hcd hg hnc]
    constructor <;> intro hm <;> simp [hblk, hm]
  · intro cached dc hcd hw hblk
    rw [reviewToolCall_cache_hit cfg watched event ctx md now st cached dc hw hcd]
    constructor <;> intro hm <;> simp [hblk, hm]

/-- Witness for C5: the same fresh block verdict blocks under enforce and
passes through (`undefined`) under audit. -/
theorem guardian_block_enforced_only_witness :
    (reviewToolCall ⟨FallbackPolicy.allow, GuardianMode.enforce, 3, 500⟩ ["exec"] ⟨"exec"⟩
      ⟨some "s1"⟩ ⟨GAction.block, some "bad"⟩ 0
      ⟨[], ⟨[("s1", ⟨[⟨"hi", none⟩], 0⟩)]⟩⟩).result = some ⟨true, "Guardian: bad"⟩ ∧
    (reviewToolCall ⟨FallbackPolicy.allow, GuardianMode.audit, 3, 500⟩ ["exec"] ⟨"exec"⟩
      ⟨some "s1"⟩ ⟨GAction.block, some "bad"⟩ 0
      ⟨[], ⟨[("s1", ⟨[⟨"hi", none⟩], 0⟩)]⟩⟩).result = none := by
  constructor
  · exact ((guardian_block_enforced_only ⟨FallbackPolicy.allow, GuardianMode.enforce, 3, 500⟩
      ["exec"] ⟨"exec"⟩ ⟨some "s1"⟩ ⟨GAction.block, some "bad"⟩ 0
      ⟨[], ⟨[("s1", ⟨[⟨"hi", none⟩], 0⟩)]⟩⟩).1 (by decide) rfl).1 rfl
  · exact ((guardian_block_enforced_only ⟨FallbackPolicy.allow, GuardianMode.audit, 3, 500⟩
      ["exec"] ⟨"exec"⟩ ⟨some "s1"⟩ ⟨GAction.block, some "bad"⟩ 0
      ⟨[], ⟨[("s1", ⟨[⟨"hi", none⟩], 0⟩)]⟩⟩).1 (by decide) rfl).2 rfl

/-- C9 (implicit): under audit mode `reviewToolCall` never returns a
blocking result on any path — fresh verdict, cached verdict, or the
no-session-context fallback, even with `fallback_on_error = block`; and
the no-session-context short-circuit produces an actual block exactly
when `fallback_on_error = block` and the mode is enforce. -/
theorem guardian_audit_never_blocks (cfg : GuardianConfig) (watched : List String)
    (event : ToolEvent) (ctx : ToolContext) (md : GuardianDecision) (now : Nat)
    (st : ReviewState) :
    (cfg.mode = GuardianMode.audit →
      (reviewToolCall cfg watched event ctx md now st).result = none) ∧
    (watched.contains (jsToLower event.toolName) = true →
      ∀ dc turns mc,
        getCachedDecision now
          ((ctx.sessionKey.getD "unknown") ++ ":" ++ jsToLower event.toolName)
          st.decisionCache = (none, dc) →
        getRecentTurns now (ctx.sessionKey.getD "unknown") st.msgCache = (turns, mc) →
        turns.length = 0 → ctx.sessionKey.getD "unknown" = "unknown" →
        ((reviewToolCall cfg watched event ctx md now st).result ≠ none ↔
          (cfg.fallback_on_error = FallbackPolicy.block ∧
            cfg.mode = GuardianMode.enforce))) := by
  constructor
  · intro hm
    by_cases hw : watched.contains (jsToLower event.toolName) = true
    · rcases hcd : getCachedDecision now
          ((ctx.sessionKey.getD "unknown") ++ ":" ++ jsToLower event.toolName)
          st.decisionCache with ⟨copt, dc⟩
      cases copt with
      | some cached =>
        rw [reviewToolCall_cache_hit cfg watched event ctx md now st cached dc hw hcd]
        simp [hm]
      | none =>
        rcases hg : getRecentTurns now (ctx.sessionKey.getD "unknown") st.msgCache
          with ⟨turns, mc⟩
        by_cases hnc : turns.length = 0 ∧ ctx.sessionKey.getD "unknown" = "unknown"
        · rw [reviewToolCall_no_context cfg watched event ctx md now st dc turns mc
            hw hcd hg hnc.1 hnc.2]
          simp [hm]
        · rw [reviewToolCall_fresh cfg watched event ctx md now st dc turns mc hw hcd hg hnc]
          simp [hm]
    · have hw2 : watched.contains (jsToLower event.toolName) = false := by
        revert hw
        cases watched.contains (jsToLower event.toolName) <;> simp
      rw [reviewToolCall_unwatched cfg watched event ctx md now st hw2]
  · intro hw dc turns mc hcd hg ht hsk
    rw [reviewToolCall_no_context cfg watched event ctx md now st dc turns mc hw hcd hg ht hsk]
    by_cases hcond : cfg.fallback_on_error = FallbackPolicy.block ∧
        cfg.mode = GuardianMode.enforce
    · simp [hcond]
    · simp only [if_neg hcond]
      simp [hcond]

/-- Witness for C9: an audit-mode review of a fresh block verdict returns
`undefined`, and a session-less review with empty turn cache blocks
exactly under `fallback_on_error = block` with enforce mode. -/
theorem guardian_audit_never_blocks_witness :
    (reviewToolCall ⟨FallbackPolicy.block, GuardianMode.audit, 3, 500⟩ ["exec"] ⟨"exec"⟩
      ⟨none⟩ ⟨GAction.block, some "bad"⟩ 0 ⟨[], ⟨[]⟩⟩).result = none ∧
    (reviewToolCall ⟨FallbackPolicy.block, GuardianMode.enforce, 3, 500⟩ ["exec"] ⟨"exec"⟩
      ⟨none⟩ ⟨GAction.allow, none⟩ 0 ⟨[], ⟨[]⟩⟩).result ≠ none := by
  constructor
  · exact (guardian_audit_never_blocks ⟨FallbackPolicy.block, GuardianMode.audit, 3, 500⟩
      ["exec"] ⟨"exec"⟩ ⟨none⟩ ⟨GAction.block, some "bad"⟩ 0 ⟨[], ⟨[]⟩⟩).1 rfl
  · exact ((guardian_audit_never_blocks ⟨FallbackPolicy.block, GuardianMode.enforce, 3, 500⟩
      ["exec"] ⟨"exec"⟩ ⟨none⟩ ⟨GAction.allow, none⟩ 0 ⟨[], ⟨[]⟩⟩).2 (by decide)
      [] [] ⟨[]⟩ (by decide) (by decide) (by decide) (by decide)).mpr ⟨rfl, rfl⟩

end OpenClawGuardian

namespace OpenClawGuardian

-- ---------------------------------------------------------------------------
-- Second reviews against the decision cache
-- ---------------------------------------------------------------------------

/-- A second review of the same tool under the same effective session key
within the decision-cache TTL window hits the entry stored by a first
review that called the model: no model call, verdict reused. -/
theorem review_after_fresh_hits_cache (cfg : GuardianConfig) (watched : List String)
    (event : ToolEvent) (ctx1 ctx2 : ToolContext) (md md2 : GuardianDecision)
    (t1 t2 : Nat) (st : ReviewState)
    (hsk : ctx1.sessionKey.getD "unknown" = ctx2.sessionKey.getD "unknown")
    (h1 : (reviewToolCall cfg watched event ctx1 md t1 st).modelCalled = true)
    (ht : t2 - t1 ≤ DECISION_CACHE_TTL_MS) :
    (reviewToolCall cfg watched event ctx2 md2 t2
      (reviewToolCall cfg watched event ctx1 md t1 st).state).modelCalled = false ∧
    (reviewToolCall cfg watched event ctx2 md2 t2
      (reviewToolCall cfg watched event ctx1 md t1 st).state).result =
      (if md.action = GAction.block ∧ cfg.mode = GuardianMode.enforce then
        some ⟨true, "Guardian: " ++ jsOrElse md.reason "blocked (cached)"⟩ else none) := by
  obtain ⟨hw, dc, turns, mc, hcd, hg, hnc, hstate⟩ :=
    reviewToolCall_modelCalled_inv cfg watched event ctx1 md t1 st h1
  have hkeys := getCachedDecision_none_keys t1 _ _ _ hcd
  have hcd2 : getCachedDecision t2
      ((ctx2.sessionKey.getD "unknown") ++ ":" ++ jsToLower event.toolName)
      (reviewToolCall cfg watched event ctx1 md t1 st).state.decisionCache =
      (some ⟨md.action, md.reason, t1⟩,
        (reviewToolCall cfg watched event ctx1 md t1 st).state.decisionCache) := by
    rw [hstate, ← hsk]
    exact getCachedDecision_after_set t1 t2 _ md.action md.reason dc hkeys ht
  rw [reviewToolCall_cache_hit cfg watched event ctx2 md2 t2 _ _ _ hw hcd2]
  by_cases hcond : md.action = GAction.block ∧ cfg.mode = GuardianMode.enforce
  · simp [hcond]
  · simp only [if_neg hcond]
    simp [hcond]

/-- C4: for a watched tool, once a first review has invoked the model, a
second review of the same (session, tool) pair within the decision-cache
TTL window does not invoke the model again (so the pair of reviews makes
exactly one model call); after TTL expiry, or after an explicit cache
clear, a new review invokes the model again. -/
theorem guardian_decision_cache_dedup (cfg : GuardianConfig) (watched : List String)
    (event : ToolEvent) (ctx : ToolContext) (md md2 : GuardianDecision) (t1 t2 : Nat)
    (st : ReviewState)
    (h1 : (reviewToolCall cfg watched event ctx md t1 st).modelCalled = true) :
    (t2 - t1 ≤ DECISION_CACHE_TTL_MS →
      (reviewToolCall cfg watched event ctx md2 t2
        (reviewToolCall cfg watched event ctx md t1 st).state).modelCalled = false) ∧
    (t2 - t1 > DECISION_CACHE_TTL_MS → ctx.sessionKey.getD "unknown" ≠ "unknown" →
      (reviewToolCall cfg watched event ctx md2 t2
        (reviewToolCall cfg watched event ctx md t1 st).state).modelCalled = true) ∧
    (ctx.sessionKey.getD "unknown" ≠ "unknown" →
      (reviewToolCall cfg watched event ctx md2 t2
        (clearDecisionCache (reviewToolCall cfg watched event ctx md t1 st).state)).modelCalled
        = true) := by
  obtain ⟨hw, dc, turns, mc, hcd, hg, hnc, hstate⟩ :=
    reviewToolCall_modelCalled_inv cfg watched event ctx md t1 st h1
  have hkeys := getCachedDecision_none_keys t1 _ _ _ hcd
  refine ⟨?_, ?_, ?_⟩
  · intro ht
    exact (review_after_fresh_hits_cache cfg watched event ctx ctx md md2 t1 t2 st
      rfl h1 ht).1
  · intro ht hsk
    have hcd2 : getCachedDecision t2
        ((ctx.sessionKey.getD "unknown") ++ ":" ++ jsToLower event.toolName)
        (reviewToolCall cfg watched event ctx md t1 st).state.decisionCache =
        (none, mapDelete
          (reviewToolCall cfg watched event ctx md t1 st).state.decisionCache
          ((ctx.sessionKey.getD "unknown") ++ ":" ++ jsToLower event.toolName)) := by
      rw [hstate]
      exact getCachedDecision_after_set_expired t1 t2 _ md.action md.reason dc hkeys ht
    rcases hg2 : getRecentTurns t2 (ctx.sessionKey.getD "unknown")
        (reviewToolCall cfg watched event ctx md t1 st).state.msgCache with ⟨turns2, mc2⟩
    have hnc2 : ¬(turns2.length = 0 ∧ ctx.sessionKey.getD "unknown" = "unknown") :=
      fun hcon => hsk hcon.2
    rw [reviewToolCall_fresh cfg watched event ctx md2 t2 _ _ _ _ hw hcd2 hg2 hnc2]
    split <;> rfl
  · intro hsk
    have hcd2 : getCachedDecision t2
        ((ctx.sessionKey.getD "unknown") ++ ":" ++ jsToLower event.toolName)
        (clearDecisionCache (reviewToolCall cfg watched event ctx md t1 st).state).decisionCache
        = (none, []) := rfl
    rcases hg2 : getRecentTurns t2 (ctx.sessionKey.getD "unknown")
        (clearDecisionCache (reviewToolCall cfg watched event ctx md t1 st).state).msgCache
        with ⟨turns2, mc2⟩
    have hnc2 : ¬(turns2.length = 0 ∧ ctx.sessionKey.getD "unknown" = "unknown") :=
      fun hcon => hsk hcon.2
    rw [reviewToolCall_fresh cfg watched event ctx md2 t2 _ _ _ _ hw hcd2 hg2 hnc2]
    split <;> rfl

/-- Witness for C4: with session `s1` and tool `exec`, a review at `t=0`
calls the model; a second at `t=1000` (within the 5s TTL) does not; one
at `t=9000` (expired) does; and one after an explicit clear does. -/
theorem guardian_decision_cache_dedup_witness :
    ((reviewToolCall ⟨FallbackPolicy.allow, GuardianMode.enforce, 3, 500⟩ ["exec"] ⟨"exec"⟩
        ⟨some "s1"⟩ ⟨GAction.allow, none⟩ 0
        ⟨[], ⟨[("s1", ⟨[⟨"hi", none⟩], 0⟩)]⟩⟩).modelCalled = true) ∧
    ((reviewToolCall ⟨FallbackPolicy.allow, GuardianMode.enforce, 3, 500⟩ ["exec"] ⟨"exec"⟩
        ⟨some "s1"⟩ ⟨GAction.block, some "no"⟩ 1000
        (reviewToolCall ⟨FallbackPolicy.allow, GuardianMode.enforce, 3, 500⟩ ["exec"] ⟨"exec"⟩
          ⟨some "s1"⟩ ⟨GAction.allow, none⟩ 0
          ⟨[], ⟨[("s1", ⟨[⟨"hi", none⟩], 0⟩)]⟩⟩).state).modelCalled = false) ∧
    ((reviewToolCall ⟨FallbackPolicy.allow, GuardianMode.enforce, 3, 500⟩ ["exec"] ⟨"exec"⟩
        ⟨some "s1"⟩ ⟨GAction.block, some "no"⟩ 9000
        (reviewToolCall ⟨FallbackPolicy.allow, GuardianMode.enforce, 3, 500⟩ ["exec"] ⟨"exec"⟩
          ⟨some "s1"⟩ ⟨GAction.allow, none⟩ 0
          ⟨[], ⟨[("s1", ⟨[⟨"hi", none⟩], 0⟩)]⟩⟩).state).modelCalled = true) ∧
    ((reviewToolCall ⟨FallbackPolicy.allow, GuardianMode.enforce, 3, 500⟩ ["exec"] ⟨"exec"⟩
        ⟨some "s1"⟩ ⟨GAction.block, some "no"⟩ 1000
        (clearDecisionCache
          (reviewToolCall ⟨FallbackPolicy.allow, GuardianMode.enforce, 3, 500⟩ ["exec"] ⟨"exec"⟩
            ⟨some "s1"⟩ ⟨GAction.allow, none⟩ 0
            ⟨[], ⟨[("s1", ⟨[⟨"hi", none⟩], 0⟩)]⟩⟩).state)).modelCalled = true) := by
  have h := guardian_decision_cache_dedup ⟨FallbackPolicy.allow, GuardianMode.enforce, 3, 500⟩
    ["exec"] ⟨"exec"⟩ ⟨some "s1"⟩ ⟨GAction.allow, none⟩ ⟨GAction.block, some "no"⟩ 0 1000
    ⟨[], ⟨[("s1", ⟨[⟨"hi", none⟩], 0⟩)]⟩⟩ (by decide)
  have h9 := guardian_decision_cache_dedup ⟨FallbackPolicy.allow, GuardianMode.enforce, 3, 500⟩
    ["exec"] ⟨"exec"⟩ ⟨some "s1"⟩ ⟨GAction.allow, none⟩ ⟨GAction.block, some "no"⟩ 0 9000
    ⟨[], ⟨[("s1", ⟨[⟨"hi", none⟩], 0⟩)]⟩⟩ (by decide)
  exact ⟨by decide, h.1 (by decide), h9.2.1 (by decide) (by decide),
    h.2.2 (by decide)⟩

/-- C10 (implicit): when the tool-call context carries no session key,
the orchestrator substitutes the literal `"unknown"` session key, so a
session-less review is indistinguishable from a review with the literal
session key `"unknown"` — in particular a session-less review that
called the model leaves a decision-cache entry that a later review with
the literal key `"unknown"` (same tool, within the TTL) reuses without
calling the model. -/
theorem guardian_sessionless_unknown_key (cfg : GuardianConfig) (watched : List String)
    (event : ToolEvent) (md md2 : GuardianDecision) (t1 t2 : Nat) (st : ReviewState) :
    reviewToolCall cfg watched event ⟨none⟩ md t1 st =
      reviewToolCall cfg watched event ⟨some "unknown"⟩ md t1 st ∧
    ((reviewToolCall cfg watched event ⟨none⟩ md t1 st).modelCalled = true →
      t2 - t1 ≤ DECISION_CACHE_TTL_MS →
      (reviewToolCall cfg watched event ⟨some "unknown"⟩ md2 t2
        (reviewToolCall cfg watched event ⟨none⟩ md t1 st).state).modelCalled = false) := by
  refine ⟨rfl, ?_⟩
  intro h1 ht
  exact (review_after_fresh_hits_cache cfg watched event ⟨none⟩ ⟨some "unknown"⟩ md md2
    t1 t2 st rfl h1 ht).1

/-- Witness for C10: with no session key but a populated `"unknown"` turn
cache, a review calls the model and equals the literal-key review; a
later literal-`"unknown"` review of the same tool reuses its verdict. -/
theorem guardian_sessionless_unknown_key_witness :
    reviewToolCall ⟨FallbackPolicy.allow, GuardianMode.enforce, 3, 500⟩ ["exec"] ⟨"exec"⟩
      ⟨none⟩ ⟨GAction.allow, none⟩ 0 ⟨[], ⟨[("unknown", ⟨[⟨"hi", none⟩], 0⟩)]⟩⟩ =
    reviewToolCall ⟨FallbackPolicy.allow, GuardianMode.enforce, 3, 500⟩ ["exec"] ⟨"exec"⟩
      ⟨some "unknown"⟩ ⟨GAction.allow, none⟩ 0 ⟨[], ⟨[("unknown", ⟨[⟨"hi", none⟩], 0⟩)]⟩⟩ ∧
    (reviewToolCall ⟨FallbackPolicy.allow, GuardianMode.enforce, 3, 500⟩ ["exec"] ⟨"exec"⟩
      ⟨some "unknown"⟩ ⟨GAction.block, some "no"⟩ 1000
      (reviewToolCall ⟨FallbackPolicy.allow, GuardianMode.enforce, 3, 500⟩ ["exec"] ⟨"exec"⟩
        ⟨none⟩ ⟨GAction.allow, none⟩ 0
        ⟨[], ⟨[("unknown", ⟨[⟨"hi", none⟩], 0⟩)]⟩⟩).state).modelCalled = false := by
  have h := guardian_sessionless_unknown_key ⟨FallbackPolicy.allow, GuardianMode.enforce, 3, 500⟩
    ["exec"] ⟨"exec"⟩ ⟨GAction.allow, none⟩ ⟨GAction.block, some "no"⟩ 0 1000
    ⟨[], ⟨[("unknown", ⟨[⟨"hi", none⟩], 0⟩)]⟩⟩
  exact ⟨h.1, h.2 (by decide) (by decide)⟩

end OpenClawGuardian

namespace OpenClawGuardian

-- ---------------------------------------------------------------------------
-- Head preservation by the sanitizer; code vs claim prompt conditions
-- ---------------------------------------------------------------------------

theorem matchCI_conversation_cons_slash (t : Chars) :
    matchCI "Conversation info".data ('/' :: t) = none := by
  have hsplit : "Conversation info".data = 'C' :: "onversation info".data := rfl
  rw [hsplit]
  show (if ('/').toLower = ('C').toLower then matchCI "onversation info".data t else none) = none
  rw [if_neg (by decide)]

theorem tryMatchMeta_cons_slash (t : Chars) : tryMatchMeta ('/' :: t) = none := by
  unfold tryMatchMeta
  rw [matchCI_conversation_cons_slash t]

theorem replaceMetaGo_zero_cons (c : Char) (t : Chars) :
    replaceMetaGo 0 (c :: t) =
      (match tryMatchMeta (c :: t) with
       | some m => replaceMetaGo (m - 1) t
       | none => c :: replaceMetaGo 0 t) := rfl

theorem replaceMetaGo_cons_none (c : Char) (t : Chars) (h : tryMatchMeta (c :: t) = none) :
    replaceMetaGo 0 (c :: t) = c :: replaceMetaGo 0 t := by
  rw [replaceMetaGo_zero_cons, h]

theorem collapseGo_cons (k : Nat) (c : Char) (t : Chars) :
    collapseGo k (c :: t) =
      (if c = '\n' then
        (if k < 2 then c :: collapseGo (k + 1) t else collapseGo (k + 1) t)
      else c :: collapseGo 0 t) := rfl

theorem collapseGo_cons_not_nl (k : Nat) (c : Char) (t : Chars) (h : ¬ c = '\n') :
    collapseGo k (c :: t) = c :: collapseGo 0 t := by
  rw [collapseGo_cons, if_neg h]

theorem dropTrailingWs_cons (c : Char) (t : Chars) :
    dropTrailingWs (c :: t) =
      (match dropTrailingWs t with
       | [] => if c.isWhitespace then [] else [c]
       | r => c :: r) := rfl

theorem dropTrailingWs_cons_not_ws (c : Char) (t : Chars) (h : c.isWhitespace = false) :
    ∃ u, dropTrailingWs (c :: t) = c :: u := by
  rw [dropTrailingWs_cons]
  rcases hd : dropTrailingWs t with _ | ⟨x, xs⟩
  · exact ⟨[], by simp [h]⟩
  · exact ⟨x :: xs, rfl⟩

theorem trimChars_cons_not_ws (c : Char) (t : Chars) (h : c.isWhitespace = false) :
    ∃ u, trimChars (c :: t) = c :: u := by
  unfold trimChars
  rw [List.dropWhile_cons, if_neg (by simp [h])]
  exact dropTrailingWs_cons_not_ws c t h

theorem stripChars_cons_slash (t : Chars) : ∃ u, stripChars ('/' :: t) = '/' :: u := by
  unfold stripChars replaceMeta collapseNLs
  rw [replaceMetaGo_cons_none '/' t (tryMatchMeta_cons_slash t),
    collapseGo_cons_not_nl 0 '/' _ (by decide)]
  exact trimChars_cons_not_ws '/' _ (by decide)

theorem startsWith_slash_iff (s : String) :
    jsStartsWith s "/" = true ↔ ∃ u, s.data = '/' :: u := by
  unfold jsStartsWith
  have hd : "/".data = ['/'] := rfl
  rw [hd]
  cases hs : s.data with
  | nil => simp [List.isPrefixOf]
  | cons c cs =>
    constructor
    · intro h
      have hc : c = '/' := by
        have := (List.cons_prefix_cons.mp (List.isPrefixOf_iff_prefix.mp h)).1
        exact this.symm
      exact ⟨cs, by rw [hc]⟩
    · rintro ⟨u, hu⟩
      cases hu
      simp [List.isPrefixOf]

theorem strip_of_trim_slash (p : String) (hs : jsStartsWith (jsTrim p) "/" = true) :
    stripChannelMetadata (jsTrim p) ≠ "" ∧
      jsStartsWith (stripChannelMetadata (jsTrim p)) "/" = true := by
  obtain ⟨u, hu⟩ := (startsWith_slash_iff (jsTrim p)).mp hs
  obtain ⟨w, hw⟩ := stripChars_cons_slash u
  have hdata : (stripChannelMetadata (jsTrim p)).data = '/' :: w := by
    unfold stripChannelMetadata
    rw [hu] at *
    simpa using hw
  constructor
  · intro hempty
    rw [hempty] at hdata
    cases hdata
  · exact (startsWith_slash_iff _).mpr ⟨w, hdata⟩

theorem trim_slash_of_raw_slash (p : String) (hs : jsStartsWith p "/" = true) :
    jsStartsWith (jsTrim p) "/" = true := by
  obtain ⟨u, hu⟩ := (startsWith_slash_iff p).mp hs
  have hslash : ('/' : Char).isWhitespace = false := by decide
  rw [startsWith_slash_iff]
  have : trimChars p.data = trimChars ('/' :: u) := by rw [hu]
  unfold jsTrim at *
  rw [this]
  unfold trimChars
  rw [List.dropWhile_cons, if_neg (by simp [hslash])]
  obtain ⟨w, hw⟩ := dropTrailingWs_cons_not_ws '/' u hslash
  exact ⟨w, by simpa using congrArg String.data (congrArg String.mk hw)⟩

theorem promptTurn_some (p : String) :
    promptTurn (some p) =
      (if p ≠ "" ∧ jsTrim p ≠ "" ∧ jsStartsWith p "/" = false then
        (if stripChannelMetadata (jsTrim p) ≠ "" ∧
            jsStartsWith (stripChannelMetadata (jsTrim p)) "/" = false then
          [⟨stripChannelMetadata (jsTrim p), none⟩]
        else [])
      else []) := rfl

theorem claimPromptTurns_some (p : String) :
    claimPromptTurns (some p) =
      (if jsTrim p ≠ "" ∧ stripChannelMetadata (jsTrim p) ≠ "" ∧
          jsStartsWith (stripChannelMetadata (jsTrim p)) "/" = false then
        [⟨stripChannelMetadata (jsTrim p), none⟩]
      else []) := rfl

/-- The current-prompt condition of the source coincides with the
specification-side condition of claim C3 (non-blank, and still non-blank
and not slash-prefixed after sanitization). -/
theorem promptTurn_eq_claim (currentPrompt : Option String) :
    promptTurn currentPrompt = claimPromptTurns currentPrompt := by
  cases currentPrompt with
  | none => rfl
  | some p =>
    rw [promptTurn_some, claimPromptTurns_some]
    by_cases htrim : jsTrim p = ""
    · rw [if_neg (by simp [htrim]), if_neg (by simp [htrim])]
    · by_cases hraw : jsStartsWith p "/" = true
      · have hts := trim_slash_of_raw_slash p hraw
        have hstrip := strip_of_trim_slash p hts
        rw [if_neg (by simp [hraw]), if_neg (by simp [hstrip.2])]
      · have hp : p ≠ "" := by
          intro he
          apply htrim
          rw [he]
          rfl
        have hraw2 : jsStartsWith p "/" = false := by
          revert hraw
          cases jsStartsWith p "/" <;> simp
        rw [if_pos ⟨hp, htrim, hraw2⟩]
        by_cases hc : stripChannelMetadata (jsTrim p) ≠ "" ∧
            jsStartsWith (stripChannelMetadata (jsTrim p)) "/" = false
        · rw [if_pos hc, if_pos ⟨htrim, hc.1, hc.2⟩]
        · rw [if_neg hc, if_neg (fun hcon => hc ⟨hcon.2.1, hcon.2.2⟩)]

end OpenClawGuardian

namespace OpenClawGuardian

-- ---------------------------------------------------------------------------
-- Turn-cache storage and retrieval
-- ---------------------------------------------------------------------------

theorem mapGet_of_uniform (l : List (String × α)) (k : String) (v : α)
    (hex : ∃ p, p ∈ l ∧ p.1 = k)
    (hall : ∀ p ∈ l, p.1 = k → p = (k, v)) : mapGet l k = some v := by
  induction l with
  | nil =>
    rcases hex with ⟨p, hp, _⟩
    cases hp
  | cons x xs ih =>
    by_cases hx : x.1 = k
    · have hxv : x = (k, v) := hall x (List.mem_cons_self x xs) hx
      subst hxv
      simp [mapGet, List.find?_cons]
    · have hxb : (x.1 == k) = false := by simpa using hx
      rcases hex with ⟨p, hp, hpk⟩
      rcases List.mem_cons.mp hp with rfl | hmem
      · exact absurd hpk hx
      · have := ih ⟨p, hmem, hpk⟩ (fun q hq hqk => hall q (List.mem_cons_of_mem x hq) hqk)
        simpa [mapGet, List.find?_cons, hxb] using this

theorem cacheLive_fresh (now : Nat) (key : String) (recent : List ConversationTurn) :
    (fun (p : String × CachedMessages) =>
      !decide (now - p.2.updatedAt > CACHE_TTL_MS)) (key, ⟨recent, now⟩) = true := by
  simp [CACHE_TTL_MS]

theorem mapGet_pruneCache_fresh (now : Nat) (key : String) (recent : List ConversationTurn)
    (st : CacheState) (hcap : st.entries.length ≤ MAX_CACHE_SIZE) :
    mapGet (pruneCache now (mapSet st.entries key ⟨recent, now⟩)) key =
      some ⟨recent, now⟩ := by
  unfold pruneCache mapSet
  by_cases hany : st.entries.any (fun p => p.1 == key) = true
  · -- the key already exists: in-place replacement, no size eviction
    rw [if_pos hany]
    set f : String × CachedMessages → String × CachedMessages :=
      fun p => if p.1 == key then (key, ⟨recent, now⟩) else p with hf
    set q : String × CachedMessages → Bool :=
      fun p => !decide (now - p.2.updatedAt > CACHE_TTL_MS) with hq
    have hall : ∀ p ∈ (st.entries.map f).filter q, p.1 = key → p = (key, ⟨recent, now⟩) := by
      intro p hp hpk
      have hp2 := List.mem_of_mem_filter hp
      rcases List.mem_map.mp hp2 with ⟨r, _, hr⟩
      by_cases hrk : (r.1 == key) = true
      · rw [← hr, hf]
        simp [hrk]
      · exfalso
        have : p = r := by
          rw [← hr, hf]
          simp [hrk]
        rw [this] at hpk
        simp [hpk] at hrk
    have hex : ∃ p, p ∈ (st.entries.map f).filter q ∧ p.1 = key := by
      rcases List.any_eq_true.mp hany with ⟨r, hr, hrk⟩
      refine ⟨(key, ⟨recent, now⟩), List.mem_filter.mpr ⟨?_, ?_⟩, rfl⟩
      · refine List.mem_map.mpr ⟨r, hr, ?_⟩
        rw [hf]
        simp [hrk]
      · exact cacheLive_fresh now key recent
    have hlen : ((st.entries.map f).filter q).length ≤ MAX_CACHE_SIZE := by
      calc ((st.entries.map f).filter q).length
          ≤ (st.entries.map f).length := List.length_filter_le _ _
        _ = st.entries.length := List.length_map _ _
        _ ≤ MAX_CACHE_SIZE := hcap
    rw [evictWhileOver_eq_drop]
    have hz : ((st.entries.map f).filter q).length - MAX_CACHE_SIZE = 0 := by omega
    rw [hz, List.drop_zero]
    exact mapGet_of_uniform _ key _ hex hall
  · -- new key: appended last, survives expiry filtering and front eviction
    rw [if_neg hany]
    have hkeys : ∀ p ∈ st.entries, p.1 ≠ key := by
      intro p hp hpk
      apply hany
      rw [List.any_eq_true]
      exact ⟨p, hp, by simp [hpk]⟩
    set q : String × CachedMessages → Bool :=
      fun p => !decide (now - p.2.updatedAt > CACHE_TTL_MS) with hq
    rw [List.filter_append]
    have hfkv : List.filter q [(key, (⟨recent, now⟩ : CachedMessages))] =
        [(key, (⟨recent, now⟩ : CachedMessages))] := by
      rw [List.filter_cons]
      rw [if_pos (by rw [hq]; exact cacheLive_fresh now key recent)]
      rfl
    rw [hfkv, evictWhileOver_eq_drop]
    have hd : (st.entries.filter q ++ [(key, (⟨recent, now⟩ : CachedMessages))]).length
        - MAX_CACHE_SIZE ≤ (st.entries.filter q).length := by
      simp only [List.length_append, List.length_singleton]
      have : 1 ≤ MAX_CACHE_SIZE := by decide
      omega
    rw [List.drop_append_of_le_length hd]
    exact mapGet_append_singleton _ key _
      (fun p hp => hkeys p (List.mem_of_mem_filter (List.drop_subset _ _ hp)))

theorem getRecentTurns_of_get_some (now : Nat) (key : String) (st : CacheState)
    (e : CachedMessages) (hm : mapGet st.entries key = some e) :
    getRecentTurns now key st =
      (if now - e.updatedAt > CACHE_TTL_MS then ([], ⟨mapDelete st.entries key⟩)
       else (e.turns, st)) := by
  unfold getRecentTurns
  rw [hm]

theorem getRecentTurns_after_update (now : Nat) (key : String)
    (recent : List ConversationTurn) (st : CacheState)
    (hcap : st.entries.length ≤ MAX_CACHE_SIZE) :
    (getRecentTurns now key
      (⟨pruneCache now (mapSet st.entries key ⟨recent, now⟩)⟩ : CacheState)).1 = recent := by
  rw [getRecentTurns_of_get_some now key
    (⟨pruneCache now (mapSet st.entries key ⟨recent, now⟩)⟩ : CacheState) ⟨recent, now⟩
    (mapGet_pruneCache_fresh now key recent st hcap)]
  rw [if_neg (by simp [CACHE_TTL_MS])]

end OpenClawGuardian

namespace OpenClawGuardian

/-- C2 (code behavior at the failing input): assistant text after the
last user message is DISCARDED by `extractConversationTurns` and hence by
`updateCache` — the last emitted turn keeps `assistant = none` instead of
receiving the trailing reply, contradicting the repository's own test
("appends trailing assistant messages to last turn") and the spec. -/
theorem guardian_trailing_assistant_dropped :
    extractConversationTurns
      [Message.mk "user" (MsgContent.str "Check disk"),
       Message.mk "assistant" (MsgContent.str "Sure, checking...")] =
      [⟨"Check disk", none⟩] ∧
    (getRecentTurns 0 "s1" (updateCache 0 "s1"
      [Message.mk "user" (MsgContent.str "Check disk"),
       Message.mk "assistant" (MsgContent.str "Sure, checking...")] none 3 ⟨[]⟩)).1 =
      [⟨"Check disk", none⟩] := by
  exact ⟨by decide, by decide⟩

/-- Counterexample to C3 as stated: for `maxTurns = 0`, JavaScript
`slice(-0)` is `slice(0)`, so the code stores the WHOLE turn list rather
than the last 0 entries. -/
theorem guardian_update_then_get_counterexample :
    ¬ ((getRecentTurns 0 "s1" (updateCache 0 "s1"
        [Message.mk "user" (MsgContent.str "Hello")] none 0 ⟨[]⟩)).1 =
      lastN 0 (extractConversationTurns [Message.mk "user" (MsgContent.str "Hello")]
        ++ claimPromptTurns none)) := by decide

/-- C3 (amended: `maxTurns ≥ 1`, and the store holds at most
`MAX_CACHE_SIZE` sessions, the invariant every `updateCache` maintains):
`updateCache` followed immediately by `getRecentTurns` on the same key
returns exactly the last `maxTurns` entries of the extracted turn list
(oldest dropped first), with the current prompt — if non-blank, and still
non-blank and not slash-prefixed after sanitization — appended as a final
`{user: sanitizedPrompt}` turn after all history-derived turns before
truncation. -/
theorem guardian_update_then_get (now : Nat) (key : String) (hist : List Message)
    (prompt : Option String) (maxTurns : Nat) (st : CacheState)
    (hcap : st.entries.length ≤ MAX_CACHE_SIZE) (hm : 1 ≤ maxTurns) :
    (getRecentTurns now key (updateCache now key hist prompt maxTurns st)).1 =
      lastN maxTurns (extractConversationTurns hist ++ claimPromptTurns prompt) := by
  show (getRecentTurns now key
      (⟨pruneCache now (mapSet st.entries key
        ⟨jsSliceLast (extractConversationTurns hist ++ promptTurn prompt) maxTurns, now⟩)⟩ :
          CacheState)).1 =
    lastN maxTurns (extractConversationTurns hist ++ claimPromptTurns prompt)
  rw [getRecentTurns_after_update now key _ st hcap]
  rw [promptTurn_eq_claim]
  unfold jsSliceLast lastN
  rw [if_neg (by omega)]

/-- Witness for C3: three history turns plus a current prompt with
`maxTurns = 3` yield exactly the last two history turns and the prompt
turn. -/
theorem guardian_update_then_get_witness :
    (getRecentTurns 5 "s1" (updateCache 5 "s1"
      [Message.mk "user" (MsgContent.str "Msg 1"),
       Message.mk "assistant" (MsgContent.str "Reply 1"),
       Message.mk "user" (MsgContent.str "Msg 2")]
      (some "Latest prompt") 3 ⟨[]⟩)).1 =
      lastN 3 (extractConversationTurns
        [Message.mk "user" (MsgContent.str "Msg 1"),
         Message.mk "assistant" (MsgContent.str "Reply 1"),
         Message.mk "user" (MsgContent.str "Msg 2")]
        ++ claimPromptTurns (some "Latest prompt")) ∧
    lastN 3 (extractConversationTurns
        [Message.mk "user" (MsgContent.str "Msg 1"),
         Message.mk "assistant" (MsgContent.str "Reply 1"),
         Message.mk "user" (MsgContent.str "Msg 2")]
        ++ claimPromptTurns (some "Latest prompt")) =
      [⟨"Msg 1", none⟩, ⟨"Msg 2", some "Reply 1"⟩, ⟨"Latest prompt", none⟩] := by
  exact ⟨guardian_update_then_get 5 "s1" _ _ 3 ⟨[]⟩ (by decide) (by decide), by decide⟩

end OpenClawGuardian

namespace OpenClawGuardian

-- ---------------------------------------------------------------------------
-- Newline-collapse and trim algebra for the sanitizer
-- ---------------------------------------------------------------------------

theorem hasMetaMatch_cons (c : Char) (t : Chars) :
    hasMetaMatch (c :: t) = ((tryMatchMeta (c :: t)).isSome || hasMetaMatch t) := rfl

theorem replaceMeta_eq_self_of_no_match (s : Chars) (h : hasMetaMatch s = false) :
    replaceMeta s = s := by
  induction s with
  | nil => rfl
  | cons c t ih =>
    rw [hasMetaMatch_cons] at h
    have h2 := Bool.or_eq_false_iff.mp h
    have hnone : tryMatchMeta (c :: t) = none := by
      revert h2
      cases tryMatchMeta (c :: t) <;> simp
    unfold replaceMeta at *
    rw [replaceMetaGo_cons_none c t hnone, ih h2.2]

theorem noTriple_cons3 (x a b : Char) (r : Chars) :
    noTriple (x :: a :: b :: r) =
      (if x = '\n' ∧ a = '\n' ∧ b = '\n' then false else noTriple (a :: b :: r)) := rfl

theorem noTriple_tail (c : Char) (X : Chars) (h : noTriple (c :: X) = true) :
    noTriple X = true := by
  cases X with
  | nil => rfl
  | cons a Y =>
    cases Y with
    | nil => rfl
    | cons b r =>
      rw [noTriple_cons3] at h
      by_cases hc : c = '\n' ∧ a = '\n' ∧ b = '\n'
      · rw [if_pos hc] at h
        cases h
      · rw [if_neg hc] at h
        exact h

theorem noTriple_append_right (A B : Chars) (h : noTriple (A ++ B) = true) :
    noTriple B = true := by
  induction A with
  | nil => exact h
  | cons a A2 ih => exact ih (noTriple_tail a (A2 ++ B) h)

theorem noTriple_append_left (A B : Chars) (h : noTriple (A ++ B) = true) :
    noTriple A = true := by
  induction A with
  | nil => rfl
  | cons a A2 ih =>
    cases hA : A2 with
    | nil => rfl
    | cons x Y =>
      cases hY : Y with
      | nil => rfl
      | cons y r =>
        subst hA
        subst hY
        rw [List.cons_append, List.cons_append, List.cons_append, noTriple_cons3] at h
        rw [noTriple_cons3]
        by_cases hc : a = '\n' ∧ x = '\n' ∧ y = '\n'
        · rw [if_pos hc] at h
          cases h
        · rw [if_neg hc] at h
          rw [if_neg hc]
          have := ih (by simpa [List.cons_append] using h)
          exact this

theorem noTriple_cons_of_ne (c : Char) (X : Chars) (h : ¬ c = '\n')
    (hX : noTriple X = true) : noTriple (c :: X) = true := by
  cases X with
  | nil => rfl
  | cons a Y =>
    cases Y with
    | nil => rfl
    | cons b r =>
      rw [noTriple_cons3, if_neg (fun hcon => h hcon.1)]
      exact hX

theorem leadingNLs_cons (c : Char) (X : Chars) :
    leadingNLs (c :: X) = (if c = '\n' then leadingNLs X + 1 else 0) := rfl

theorem noTriple_cons_nl (X : Chars) (hX : noTriple X = true)
    (hlead : leadingNLs X ≤ 1) : noTriple ('\n' :: X) = true := by
  cases X with
  | nil => rfl
  | cons a Y =>
    cases Y with
    | nil => rfl
    | cons b r =>
      rw [noTriple_cons3]
      by_cases hc : '\n' = '\n' ∧ a = '\n' ∧ b = '\n'
      · exfalso
        rw [leadingNLs_cons, if_pos hc.2.1, leadingNLs_cons, if_pos hc.2.2] at hlead
        omega
      · rw [if_neg hc]
        exact hX

theorem collapseGo_noTriple_lead : ∀ (s : Chars) (k : Nat),
    noTriple (collapseGo k s) = true ∧ leadingNLs (collapseGo k s) ≤ 2 - k
  | [], k => ⟨rfl, by simp [collapseGo, leadingNLs]⟩
  | c :: t, k => by
    by_cases hc : c = '\n'
    · subst hc
      by_cases hk : k < 2
      · rw [collapseGo_cons, if_pos rfl, if_pos hk]
        have ih := collapseGo_noTriple_lead t (k + 1)
        refine ⟨noTriple_cons_nl _ ih.1 (by omega), ?_⟩
        rw [leadingNLs_cons, if_pos rfl]
        omega
      · rw [collapseGo_cons, if_pos rfl, if_neg hk]
        have ih := collapseGo_noTriple_lead t (k + 1)
        exact ⟨ih.1, by omega⟩
    · rw [collapseGo_cons, if_neg hc]
      have ih := collapseGo_noTriple_lead t 0
      refine ⟨noTriple_cons_of_ne c _ hc ih.1, ?_⟩
      rw [leadingNLs_cons, if_neg hc]
      omega

theorem noTriple_replicate_cons_nl (k : Nat) (t : Chars) (hk : 2 ≤ k) :
    noTriple (List.replicate k '\n' ++ '\n' :: t) = false := by
  obtain ⟨m, rfl⟩ : ∃ m, k = m + 2 := ⟨k - 2, by omega⟩
  rw [show List.replicate (m + 2) '\n' = '\n' :: '\n' :: List.replicate m '\n' from rfl]
  have : ∃ d u, List.replicate m '\n' ++ '\n' :: t = d :: u ∧ d = '\n' := by
    cases m with
    | zero => exact ⟨'\n', t, rfl, rfl⟩
    | succ m2 =>
      exact ⟨'\n', List.replicate m2 '\n' ++ '\n' :: t,
        by rw [show List.replicate (m2 + 1) '\n' = '\n' :: List.replicate m2 '\n' from rfl]; rfl,
        rfl⟩
  obtain ⟨d, u, hdu, hd⟩ := this
  rw [List.cons_append, List.cons_append, hdu, hd, noTriple_cons3,
    if_pos ⟨rfl, rfl, rfl⟩]

theorem collapseGo_eq_self_of_noTriple : ∀ (X : Chars) (k : Nat),
    noTriple (List.replicate k '\n' ++ X) = true → collapseGo k X = X
  | [], k, _ => rfl
  | c :: t, k, h => by
    by_cases hc : c = '\n'
    · subst hc
      have hk : k < 2 := by
        by_contra hk2
        rw [noTriple_replicate_cons_nl k t (by omega)] at h
        cases h
      rw [collapseGo_cons, if_pos rfl, if_pos hk]
      have hlist : List.replicate (k + 1) '\n' ++ t = List.replicate k '\n' ++ '\n' :: t := by
        rw [List.replicate_succ']
        simp
      have := collapseGo_eq_self_of_noTriple t (k + 1) (by rw [hlist]; exact h)
      rw [this]
    · rw [collapseGo_cons, if_neg hc]
      have hrest : noTriple t = true := by
        have h2 := noTriple_append_right (List.replicate k '\n') (c :: t) h
        exact noTriple_tail c t h2
      rw [collapseGo_eq_self_of_noTriple t 0 (by simpa using hrest)]

theorem collapseNLs_eq_self_of_noTriple (X : Chars) (h : noTriple X = true) :
    collapseNLs X = X :=
  collapseGo_eq_self_of_noTriple X 0 (by simpa using h)

theorem dropWhile_suffix_decomp (p : Char → Bool) (l : Chars) :
    ∃ u, u ++ l.dropWhile p = l := by
  induction l with
  | nil => exact ⟨[], rfl⟩
  | cons c t ih =>
    by_cases hc : p c = true
    · obtain ⟨u, hu⟩ := ih
      rw [List.dropWhile_cons, if_pos hc]
      exact ⟨c :: u, by rw [List.cons_append, hu]⟩
    · rw [List.dropWhile_cons, if_neg (by simp [hc])]
      exact ⟨[], rfl⟩

theorem dropTrailingWs_prefix_decomp (l : Chars) :
    ∃ u, dropTrailingWs l ++ u = l := by
  induction l with
  | nil => exact ⟨[], rfl⟩
  | cons c t ih =>
    rw [dropTrailingWs_cons]
    rcases hd : dropTrailingWs t with _ | ⟨x, xs⟩
    · by_cases hw : c.isWhitespace = true
      · rw [if_pos hw]
        exact ⟨c :: t, rfl⟩
      · rw [if_neg hw]
        obtain ⟨u, hu⟩ := ih
        rw [hd] at hu
        exact ⟨t, by simp⟩
    · obtain ⟨u, hu⟩ := ih
      rw [hd] at hu
      exact ⟨u, by rw [List.cons_append, hu]⟩
  -- the `[]`-match arm above needs the `if` split on whitespace

theorem noTriple_trimChars (y : Chars) (h : noTriple y = true) :
    noTriple (trimChars y) = true := by
  unfold trimChars
  obtain ⟨u, hu⟩ := dropWhile_suffix_decomp Char.isWhitespace y
  have hdw : noTriple (y.dropWhile Char.isWhitespace) = true :=
    noTriple_append_right u _ (by rw [hu]; exact h)
  obtain ⟨w, hw⟩ := dropTrailingWs_prefix_decomp (y.dropWhile Char.isWhitespace)
  exact noTriple_append_left _ w (by rw [hw]; exact hdw)

theorem dropWhile_head_false (p : Char → Bool) (l : Chars) (c : Char) (u : Chars)
    (h : l.dropWhile p = c :: u) : p c = false := by
  induction l with
  | nil => cases h
  | cons d t ih =>
    rw [List.dropWhile_cons] at h
    by_cases hd : p d = true
    · rw [if_pos hd] at h
      exact ih h
    · rw [if_neg (by simp [hd])] at h
      cases h
      simpa using hd

theorem dropTrailingWs_idem (l : Chars) :
    dropTrailingWs (dropTrailingWs l) = dropTrailingWs l := by
  induction l with
  | nil => rfl
  | cons c t ih =>
    rw [dropTrailingWs_cons]
    rcases hd : dropTrailingWs t with _ | ⟨x, xs⟩
    · by_cases hw : c.isWhitespace = true
      · rw [if_pos hw]
        rfl
      · rw [if_neg hw]
        rw [dropTrailingWs_cons]
        show (if c.isWhitespace then ([] : Chars) else [c]) = [c]
        rw [if_neg hw]
    · have h2 : dropTrailingWs (x :: xs) = x :: xs := by
        rw [← hd, ih, hd]
      rw [dropTrailingWs_cons, h2]

theorem trimChars_idem (y : Chars) : trimChars (trimChars y) = trimChars y := by
  unfold trimChars
  set z := y.dropWhile Char.isWhitespace with hz
  have hdwz : (dropTrailingWs z).dropWhile Char.isWhitespace = dropTrailingWs z := by
    rcases hdz : dropTrailingWs z with _ | ⟨c, u⟩
    · rfl
    · obtain ⟨w, hw⟩ := dropTrailingWs_prefix_decomp z
      rw [hdz] at hw
      have hzc : ∃ v, z = c :: v := ⟨u ++ w, by rw [← hw]; simp⟩
      obtain ⟨v, hv⟩ := hzc
      have hcw : Char.isWhitespace c = false := by
        apply dropWhile_head_false Char.isWhitespace y c v
        rw [← hz, hv]
      rw [List.dropWhile_cons, if_neg (by simp [hcw])]
  rw [hdwz, dropTrailingWs_idem]

end OpenClawGuardian

namespace OpenClawGuardian

-- ---------------------------------------------------------------------------
-- A lone metadata block strips to nothing
-- ---------------------------------------------------------------------------

theorem matchCI_cons_cons (q : Char) (ps : Chars) (c : Char) (cs : Chars) :
    matchCI (q :: ps) (c :: cs) =
      (if c.toLower = q.toLower then matchCI ps cs else none) := rfl

theorem matchCI_append_of_match : ∀ (p l s : Chars), matchCI p l = some [] →
    matchCI p (l ++ s) = some s
  | [], l, s, h => by
    cases l with
    | nil => rfl
    | cons c cs => simp [matchCI] at h
  | q :: ps, l, s, h => by
    cases l with
    | nil => simp [matchCI] at h
    | cons c cs =>
      rw [matchCI_cons_cons] at h
      rw [List.cons_append, matchCI_cons_cons]
      by_cases hc : c.toLower = q.toLower
      · rw [if_pos hc] at h
        rw [if_pos hc]
        exact matchCI_append_of_match ps cs s h
      · rw [if_neg hc] at h
        cases h

theorem scanToTicks_cons (c : Char) (rest : Chars) :
    scanToTicks (c :: rest) =
      (if ticks.isPrefixOf (c :: rest) then some ((c :: rest).drop 3)
       else scanToTicks rest) := rfl

theorem ticks_isPrefixOf_cons_false (c : Char) (X : Chars) (h : ¬ c = tick) :
    ticks.isPrefixOf (c :: X) = false := by
  show ((tick == c) && List.isPrefixOf [tick, tick] X) = false
  have hb : (tick == c) = false := by
    simp only [beq_eq_false_iff_ne, ne_eq]
    exact fun hx => h hx.symm
  rw [hb, Bool.false_and]

theorem scanToTicks_body_ticks (body : Chars) (h : ∀ c ∈ body, ¬ c = tick) :
    scanToTicks (body ++ ticks) = some [] := by
  induction body with
  | nil =>
    show scanToTicks ticks = some []
    decide
  | cons c t ih =>
    rw [List.cons_append, scanToTicks_cons,
      if_neg (by simp [ticks_isPrefixOf_cons_false c _ (h c (List.mem_cons_self c t))])]
    exact ih (fun d hd => h d (List.mem_cons_of_mem c hd))

theorem dropWhile_ws_cons_space (X : Chars) :
    (' ' :: X).dropWhile Char.isWhitespace = X.dropWhile Char.isWhitespace := by
  rw [List.dropWhile_cons, if_pos (by decide)]

theorem dropWhile_ws_cons_of_false (c : Char) (X : Chars) (h : c.isWhitespace = false) :
    (c :: X).dropWhile Char.isWhitespace = c :: X := by
  rw [List.dropWhile_cons, if_neg (by simp [h])]

theorem tryMatchMeta_eval (s r1 r3 r5 r7 r8 : Chars)
    (h1 : matchCI "Conversation info".data s = some r1)
    (h2 : matchCI "(untrusted metadata)".data (r1.dropWhile Char.isWhitespace) = some r3)
    (h3 : r3.dropWhile Char.isWhitespace = ':' :: r5)
    (h4 : matchCI ticks (r5.dropWhile Char.isWhitespace) = some r7)
    (h5 : scanToTicks r7 = some r8) :
    tryMatchMeta s = some (s.length - r8.length) := by
  unfold tryMatchMeta
  simp only [h1]
  simp only [h2]
  simp only [h3]
  simp only [h4]
  simp only [h5]

theorem tryMatchMeta_metaBlock (body : Chars) (h : ∀ c ∈ body, ¬ c = tick) :
    tryMatchMeta (metaBlock body) = some (metaBlock body).length := by
  have h1 : matchCI "Conversation info".data (metaBlock body) =
      some (" (untrusted metadata): ```".data ++ (body ++ ticks)) := by
    have hsplit : metaBlock body =
        "Conversation info".data ++ (" (untrusted metadata): ```".data ++ (body ++ ticks)) := by
      unfold metaBlock
      have hx : "Conversation info (untrusted metadata): ```".data =
          "Conversation info".data ++ " (untrusted metadata): ```".data := by decide
      rw [hx]
      simp
    rw [hsplit]
    exact matchCI_append_of_match _ _ _ (by decide)
  have hdw1 : (" (untrusted metadata): ```".data ++ (body ++ ticks)).dropWhile
      Char.isWhitespace =
      "(untrusted metadata)".data ++ (": ```".data ++ (body ++ ticks)) := by
    have hsp : " (untrusted metadata): ```".data ++ (body ++ ticks) =
        ' ' :: ('(' :: ("untrusted metadata): ```".data ++ (body ++ ticks))) := by
      have hx : " (untrusted metadata): ```".data =
          ' ' :: '(' :: "untrusted metadata): ```".data := by decide
      rw [hx]
      simp
    rw [hsp, dropWhile_ws_cons_space, dropWhile_ws_cons_of_false '(' _ (by decide)]
    show ('(' :: "untrusted metadata): ```".data) ++ (body ++ ticks) =
      "(untrusted metadata)".data ++ (": ```".data ++ (body ++ ticks))
    have hcat : ('(' :: "untrusted metadata): ```".data : Chars) =
        "(untrusted metadata)".data ++ ": ```".data := by decide
    rw [hcat, List.append_assoc]
  have h2 : matchCI "(untrusted metadata)".data
      ((" (untrusted metadata): ```".data ++ (body ++ ticks)).dropWhile Char.isWhitespace) =
      some (": ```".data ++ (body ++ ticks)) := by
    rw [hdw1]
    exact matchCI_append_of_match _ _ _ (by decide)
  have h3 : (": ```".data ++ (body ++ ticks)).dropWhile Char.isWhitespace =
      ':' :: (' ' :: ("```".data ++ (body ++ ticks))) := by
    have hx : ": ```".data ++ (body ++ ticks) =
        ':' :: (' ' :: ("```".data ++ (body ++ ticks))) := by
      have hy : ": ```".data = ':' :: ' ' :: "```".data := by decide
      rw [hy]
      simp
    rw [hx]
    exact dropWhile_ws_cons_of_false ':' _ (by decide)
  have h4 : matchCI ticks
      ((' ' :: ("```".data ++ (body ++ ticks))).dropWhile Char.isWhitespace) =
      some (body ++ ticks) := by
    rw [dropWhile_ws_cons_space]
    have hlt : ("```".data ++ (body ++ ticks)).dropWhile Char.isWhitespace =
        "```".data ++ (body ++ ticks) := by
      have hx : "```".data ++ (body ++ ticks) =
          tick :: ("``".data ++ (body ++ ticks)) := by
        have hy : "```".data = tick :: "``".data := by decide
        rw [hy]
        simp
      rw [hx]
      exact dropWhile_ws_cons_of_false tick _ (by decide)
    rw [hlt]
    show matchCI ticks (ticks ++ (body ++ ticks)) = some (body ++ ticks)
    exact matchCI_append_of_match _ _ _ (by decide)
  have h5 : scanToTicks (body ++ ticks) = some [] := scanToTicks_body_ticks body h
  have := tryMatchMeta_eval (metaBlock body)
    (" (untrusted metadata): ```".data ++ (body ++ ticks))
    (": ```".data ++ (body ++ ticks))
    (' ' :: ("```".data ++ (body ++ ticks)))
    (body ++ ticks) [] h1 h2 h3 h4 h5
  simpa using this

theorem replaceMetaGo_drain : ∀ (s : Chars) (skip : Nat), s.length ≤ skip →
    replaceMetaGo skip s = []
  | [], skip, _ => by cases skip <;> rfl
  | c :: t, skip + 1, h => by
    show replaceMetaGo (skip + 1) (c :: t) = []
    rw [show replaceMetaGo (skip + 1) (c :: t) = replaceMetaGo skip t from rfl]
    exact replaceMetaGo_drain t skip (by simpa using h)
  | c :: t, 0, h => by simp at h

theorem replaceMeta_metaBlock (body : Chars) (h : ∀ c ∈ body, ¬ c = tick) :
    replaceMeta (metaBlock body) = [] := by
  have hblock : metaBlock body =
      'C' :: ("onversation info (untrusted metadata): ```".data ++ (body ++ ticks)) := by
    unfold metaBlock
    have hx : "Conversation info (untrusted metadata): ```".data =
        'C' :: "onversation info (untrusted metadata): ```".data := by decide
    rw [hx]
    simp
  have hm := tryMatchMeta_metaBlock body h
  unfold replaceMeta
  rw [hblock] at hm ⊢
  rw [replaceMetaGo_zero_cons]
  simp only [hm]
  apply replaceMetaGo_drain
  simp

theorem stripChars_metaBlock (body : Chars) (h : ∀ c ∈ body, ¬ c = tick) :
    stripChars (metaBlock body) = [] := by
  unfold stripChars
  rw [replaceMeta_metaBlock body h]
  rfl

theorem stripChars_idem_of_no_match (x : Chars) (h : hasMetaMatch (stripChars x) = false) :
    stripChars (stripChars x) = stripChars x := by
  have hrep : replaceMeta (stripChars x) = stripChars x :=
    replaceMeta_eq_self_of_no_match _ h
  have hnt : noTriple (collapseNLs (replaceMeta x)) = true :=
    (collapseGo_noTriple_lead (replaceMeta x) 0).1
  have hnt2 : noTriple (stripChars x) = true := noTriple_trimChars _ hnt
  show trimChars (collapseNLs (replaceMeta (stripChars x))) = stripChars x
  rw [hrep, collapseNLs_eq_self_of_noTriple _ hnt2]
  exact trimChars_idem (collapseNLs (replaceMeta x))

/-- C6 (original form, refuted): the sanitizer is not idempotent.  Removing
the first metadata block can splice its surroundings into a fresh match
that a second pass removes: here the first pass deletes the inner block
(from the second "Conversation info" through the first fence), leaving a
string that still matches the pattern and strips to empty on a second
pass. -/
theorem guardian_strip_metadata_idempotent_counterexample :
    ¬ (stripChannelMetadata (stripChannelMetadata
        "Conversation info Conversation info (untrusted metadata): ```a``` (untrusted metadata): ```b```") =
      stripChannelMetadata
        "Conversation info Conversation info (untrusted metadata): ```a``` (untrusted metadata): ```b```") := by
  decide

/-- C6 (amended): the sanitizer is idempotent on every input whose first
pass leaves no further occurrence of the metadata pattern (in particular,
on every already-stripped string it fixes): newline collapsing and
trimming are idempotent on their own and stable under each other, so a
second pass is the identity; and a text consisting only of a metadata
block (with a backtick-free body, as the channel plugins emit) strips to
the empty string. -/
theorem guardian_strip_metadata_idempotent (s : String) (body : Chars)
    (hres : hasMetaMatch (stripChannelMetadata s).data = false)
    (hbody : ∀ c ∈ body, ¬ c = tick) :
    stripChannelMetadata (stripChannelMetadata s) = stripChannelMetadata s ∧
      stripChars (metaBlock body) = [] := by
  refine ⟨?_, stripChars_metaBlock body hbody⟩
  have h2 : stripChars (stripChars s.data) = stripChars s.data :=
    stripChars_idem_of_no_match s.data hres
  show String.mk (stripChars (stripChars s.data)) = String.mk (stripChars s.data)
  rw [h2]

theorem guardian_strip_metadata_idempotent_witness :
    hasMetaMatch (stripChannelMetadata
        "Conversation info (untrusted metadata): ```x``` ok").data = false ∧
      (∀ c ∈ (['a', 'b'] : Chars), ¬ c = tick) ∧
      (stripChannelMetadata (stripChannelMetadata
          "Conversation info (untrusted metadata): ```x``` ok") =
          stripChannelMetadata "Conversation info (untrusted metadata): ```x``` ok" ∧
        stripChars (metaBlock ['a', 'b']) = []) :=
  ⟨by decide, by decide,
    guardian_strip_metadata_idempotent
      "Conversation info (untrusted metadata): ```x``` ok" ['a', 'b']
      (by decide) (by decide)⟩

end OpenClawGuardian
